import Mathlib

/-!
# Stack unwinder of `src/pkg/runtime/arm/traceback.c`

A shallow embedding of `gentraceback`, `traceback` and `callers`, and the
properties of the walk that the specification states.

Modelling conventions.

* `uintptr` and `byte*` values are natural numbers; the only arithmetic that
  can wrap (`sp += f->frame`, `((uintptr*)sp)[1+i]`) is reduced modulo `2^32`.
  The subtractions `pc-4`, `pc - f->entry` and `tracepc -= sizeof(uintptr)` are
  only reached with `pc > 0x1000`, respectively `pc > f->entry`, so they do not
  wrap and are written with truncated subtraction.
* `int32` values that can be negative (`skip`, `m`, `f->frame`, `f->args`) are
  integers. The counters `n`, `iter` and `i` start at `0` and are only ever
  incremented below a bound, so they are natural numbers.
* `runtime.h` is not part of the sources. What the unwinder uses from it (the
  address `·lessstack`, `findfunc`, `funcline`, reading a word, reading a
  `Stktop` record, the global `g`, the caller-context primitives) is a field of
  `World`.
* The memory the walk reads is an input that the walk does not change; the
  output buffer `pcbuf` is a separate array that does not overlap it.
* Everything the routine does to the outside (a store into `pcbuf`, a print) is
  also appended to the log `State.out`, in program order.
-/

namespace Traceback

/-- The fields of the function descriptor `Func` that the unwinder reads. -/
structure Func where
  name : String
  src : String
  entry : Nat
  frame : Int
  args : Int
deriving DecidableEq, Repr

/-- The saved continuation `Gobuf` of a stack segment. -/
structure Gobuf where
  sp : Nat
  pc : Nat
deriving DecidableEq, Repr

/-- The record `Stktop` at the top of a stack segment. -/
structure Stktop where
  stackbase : Nat
  gobuf : Gobuf
deriving DecidableEq, Repr

/-- The task `G`; the unwinder reads only `g->stackbase`. -/
structure G where
  stackbase : Nat
deriving DecidableEq, Repr

/-- What the rest of the runtime supplies to the unwinder. -/
structure World where
  /-- The address of `·lessstack`, the segment-boundary sentinel. -/
  lessstack : Nat
  /-- The lookup `findfunc(addr)`; `none` is `nil`. -/
  findfunc : Nat → Option Func
  /-- The line-table resolver `funcline(f, pc)`. -/
  funcline : Func → Nat → Int
  /-- The word read `*(uintptr*)addr`. -/
  word : Nat → Nat
  /-- The record read `*(Stktop*)addr`. -/
  stktop : Nat → Stktop
  /-- The global `g`, the current task. -/
  g : G
  /-- The value of `getcallersp(&skip)` in `callers`. -/
  getcallersp : Nat
  /-- The value of `·getcallerpc(&skip)` in `callers`. -/
  getcallerpc : Nat

/-- One externally visible effect of the routine. -/
inductive Ev where
  /-- The store `pcbuf[i] = v`. -/
  | store (i : Nat) (v : Nat)
  /-- A string printed through the `%S` verb. -/
  | printS (s : String)
  /-- Literal text, from `prints` or from the fixed part of a format. -/
  | prints (s : String)
  /-- A value printed through the `%p` verb. -/
  | printP (v : Nat)
  /-- A value printed through the `%d` verb. -/
  | printD (v : Int)
  /-- A value printed by `·printhex`. -/
  | printhex (v : Nat)
deriving DecidableEq, Repr

/-- The local variables of `gentraceback`, the buffer behind `pcbuf`
(`none` is `nil`) and the log of effects. -/
structure State where
  pc : Nat
  sp : Nat
  lr : Nat
  stk : Nat
  skip : Int
  n : Nat
  iter : Nat
  pcbuf : Option (Nat → Nat)
  out : List Ev

/-- The address given to `funcline` (lines 54-56). -/
def tracepc (f : Func) (n pc : Nat) : Nat :=
  if 0 < n ∧ f.entry < pc then pc - 4 else pc

/-- The header line of a frame record (lines 51-57). -/
def printheader (w : World) (f : Func) (pc n : Nat) : List Ev :=
  [Ev.printS f.name]
    ++ (if f.entry < pc then [Ev.prints "+", Ev.printP (pc - f.entry)] else [])
    ++ [Ev.prints " ", Ev.printS f.src, Ev.prints ":",
        Ev.printD (w.funcline f (tracepc f n pc)), Ev.prints "\n"]

/-- The loop `for(i = 0; i < f->args; i++)` of lines 59-67, entered at `i`.
The first argument bounds the number of iterations. -/
def printargs (w : World) (sp : Nat) (args : Int) : Nat → Nat → List Ev
  | 0, _ => []
  | fuel + 1, i =>
    if (i : Int) < args then
      (if i ≠ 0 then [Ev.prints ", "] else [])
        ++ [Ev.printhex (w.word ((sp + 4 * (1 + i)) % 2 ^ 32))]
        ++ (if 4 ≤ i then [Ev.prints ", ..."] else printargs w sp args fuel (i + 1))
    else []

/-- The argument line of a frame record (lines 58-68). The loop leaves at
`i = 4` at the latest, so five iterations are all it can make. -/
def printargline (w : World) (f : Func) (sp : Nat) : List Ev :=
  [Ev.prints "\t", Ev.printS f.name, Ev.prints "("]
    ++ printargs w sp f.args 5 0
    ++ [Ev.prints ")\n"]

/-- The body of the main loop (lines 29-77). `none` is `break`; `some` is the
state at the end of the body or at `continue`, before `iter++`. -/
def body (w : World) (s : State) : Option State :=
  if s.pc = w.lessstack then
    let top := w.stktop s.stk
    some { s with
      pc := top.gobuf.pc
      sp := top.gobuf.sp
      lr := w.word top.gobuf.sp
      stk := top.stackbase }
  else if s.pc ≤ 0x1000 then none
  else
    match w.findfunc (s.pc - 4) with
    | none => none
    | some f =>
      let s1 : State :=
        if 0 < s.skip then { s with skip := s.skip - 1 }
        else
          match s.pcbuf with
          | some b =>
            { s with
              pcbuf := some (Function.update b s.n s.pc)
              out := s.out ++ [Ev.store s.n s.pc]
              n := s.n + 1 }
          | none =>
            { s with
              out := s.out ++ (printheader w f s.pc s.n ++ printargline w f s.sp)
              n := s.n + 1 }
      let lr := if s1.lr = 0 then w.word s1.sp else s1.lr
      some { s1 with
        pc := lr
        lr := 0
        sp := if 0 ≤ f.frame then (((s1.sp : Int) + f.frame) % 2 ^ 32).toNat else s1.sp }

/-- The loop `for(...; iter < 100 && n < m; iter++)` of line 28. The first
argument bounds the number of iterations that are unfolded. -/
def loop (w : World) (m : Int) : Nat → State → State
  | 0, s => s
  | fuel + 1, s =>
    if s.iter < 100 ∧ (s.n : Int) < m then
      match body w s with
      | none => s
      | some s1 => loop w m fuel { s1 with iter := s1.iter + 1 }
    else s

/-- The state on entry to the main loop (lines 16-27). -/
def start (pc0 sp lr0 : Nat) (g : G) (skip : Int) (pcbuf : Option (Nat → Nat)) : State :=
  { pc := if pc0 = 0 then lr0 else pc0
    sp := sp
    lr := if pc0 = 0 then 0 else lr0
    stk := g.stackbase
    skip := skip
    n := 0
    iter := 0
    pcbuf := pcbuf
    out := [] }

/-- The routine `gentraceback`. Its C result is the field `n` of the state
returned here; the buffer and the output are the fields `pcbuf` and `out`. -/
def gentraceback (w : World) (pc0 sp lr0 : Nat) (g : G) (skip : Int)
    (pcbuf : Option (Nat → Nat)) (m : Int) : State :=
  loop w m 100 (start pc0 sp lr0 g skip pcbuf)

/-- The routine `traceback` (lines 82-86). -/
def traceback (w : World) (pc0 sp lr : Nat) (g : G) : State :=
  gentraceback w pc0 sp lr g 0 none 100

/-- The routine `callers` (lines 89-98). -/
def callers (w : World) (skip : Int) (pcbuf : Option (Nat → Nat)) (m : Int) : State :=
  gentraceback w w.getcallerpc w.getcallersp 0 w.g skip pcbuf m

/-- The content of the buffer behind `pcbuf` at index `i`. -/
def State.buf (s : State) (i : Nat) : Nat :=
  match s.pcbuf with
  | some b => b i
  | none => 0

/-- The sequence handed back to the caller: the first `n` buffer entries. -/
def State.collected (s : State) : List Nat :=
  (List.range s.n).map s.buf

/-- The program counters of the real frames that the walker meets in its first
`k` iterations from `(pc, sp, lr, stk)`: what lines 29-40 and 72-77 do, with
`skip`, `n` and the output left out. -/
def frames (w : World) : Nat → Nat → Nat → Nat → Nat → List Nat
  | 0, _, _, _, _ => []
  | k + 1, pc, sp, lr, stk =>
    if pc = w.lessstack then
      frames w k (w.stktop stk).gobuf.pc (w.stktop stk).gobuf.sp
        (w.word (w.stktop stk).gobuf.sp) (w.stktop stk).stackbase
    else if pc ≤ 0x1000 then []
    else
      match w.findfunc (pc - 4) with
      | none => []
      | some f =>
        pc :: frames w k (if lr = 0 then w.word sp else lr)
          (if 0 ≤ f.frame then (((sp : Int) + f.frame) % 2 ^ 32).toNat else sp) 0 stk

/-- The stores `pcbuf[n] = v0, pcbuf[n+1] = v1, ...` as log entries. -/
def writes : Nat → List Nat → List Ev
  | _, [] => []
  | n, v :: vs => Ev.store n v :: writes (n + 1) vs

/-- The buffer `b` after the values of a list were stored from index `n` on. -/
def fill (b : Nat → Nat) : Nat → List Nat → Nat → Nat
  | _, [] => b
  | n, v :: vs => fill (Function.update b n v) (n + 1) vs


/-- The real frames within the iteration cap, from the entry state of
`gentraceback`. -/
def reportable (w : World) (pc0 sp lr0 : Nat) (g : G) : List Nat :=
  frames w 100 (if pc0 = 0 then lr0 else pc0) sp (if pc0 = 0 then 0 else lr0) g.stackbase

/-- A fixture: from `(pc, sp, lr)` the stack holds the frames `pcs`, innermost
first, inside one segment. Each frame's pc is above the guard threshold, is not
the sentinel and resolves (at `pc - 4`) to a descriptor with a non-negative
frame size; its return address is `lr` if that is nonzero and the word at its
`sp` otherwise; `sp` advances by the frame size. The return address of the
last frame is `e`. -/
def isStack (w : World) : List Nat → Nat → Nat → Nat → Nat → Bool
  | [], pc, _, _, e => decide (pc = e)
  | p :: ps, pc, sp, lr, e =>
    decide (pc = p) && decide (p ≠ w.lessstack) && decide (0x1000 < p) &&
      match w.findfunc (p - 4) with
      | none => false
      | some f =>
        decide (0 ≤ f.frame) &&
          isStack w ps (if lr = 0 then w.word sp else lr)
            (((sp : Int) + f.frame) % 2 ^ 32).toNat 0 e

/-- The address `pc` ends the walk: it is not the sentinel, and it is within
the guard threshold or unknown to the function index. -/
def stops (w : World) (pc : Nat) : Bool :=
  decide (pc ≠ w.lessstack) && (decide (pc ≤ 0x1000) || (w.findfunc (pc - 4)).isNone)

/-! ## Fixtures -/

/-- Descriptor of `main.main` in the fixture: no arguments, a 16-byte frame. -/
def fMain : Func :=
  { name := "main.main", src := "main.go", entry := 0x2000, frame := 16, args := 0 }

/-- Descriptor of `main.f` in the fixture: seven arguments, an 8-byte frame. -/
def fF : Func :=
  { name := "main.f", src := "f.go", entry := 0x2100, frame := 8, args := 7 }

/-- Descriptor of `main.g` in the fixture: two arguments, a 12-byte frame. -/
def fG : Func :=
  { name := "main.g", src := "g.go", entry := 0x2200, frame := 12, args := 2 }

/-- A task whose stack has two segments. The running segment holds `main.g`
(pc `0x2204`, sp `0x10000`) called from `main.f` (return address `0x2110`),
whose return address is the sentinel `0x3000`. The segment record at `0x500`
continues at pc `0x2120`, sp `0x20000` in `main.f`, called from `main.main`
(return address `0x2010`), whose return address is `0`. The seven argument words
of the running `main.f` are `0x11`, ..., `0x77`. -/
def twoSegments : World :=
  { lessstack := 0x3000
    findfunc := fun a =>
      if 0x2000 ≤ a ∧ a < 0x2100 then some fMain
      else if 0x2100 ≤ a ∧ a < 0x2200 then some fF
      else if 0x2200 ≤ a ∧ a < 0x2300 then some fG
      else none
    funcline := fun f pc => (pc : Int) - f.entry
    word := fun a =>
      if a = 0x10000 then 0x2110
      else if a = 0x1000c then 0x3000
      else if a = 0x10010 then 0x11
      else if a = 0x10014 then 0x22
      else if a = 0x10018 then 0x33
      else if a = 0x1001c then 0x44
      else if a = 0x10020 then 0x55
      else if a = 0x10024 then 0x66
      else if a = 0x10028 then 0x77
      else if a = 0x20000 then 0x2010
      else 0
    stktop := fun a =>
      if a = 0x500 then { stackbase := 0x600, gobuf := { sp := 0x20000, pc := 0x2120 } }
      else { stackbase := 0, gobuf := { sp := 0, pc := 0 } }
    g := { stackbase := 0x500 }
    getcallersp := 0x10000
    getcallerpc := 0x2204 }

/-- A task whose single segment holds 101 activations of one recursive
function: every frame is 8 bytes, the return address of the first 100 frames is
`0x2010` and that of the outermost frame is `0`. -/
def deepStack : World :=
  { lessstack := 0x3000
    findfunc := fun a => if 0x2000 ≤ a ∧ a < 0x2100 then some { fMain with frame := 8 } else none
    funcline := fun _ _ => 0
    word := fun a => if a < 0x10000 + 8 * 100 then 0x2010 else 0
    stktop := fun _ => { stackbase := 0, gobuf := { sp := 0, pc := 0 } }
    g := { stackbase := 0 }
    getcallersp := 0x10000
    getcallerpc := 0x2010 }

/-- A task whose segment chain is a cycle: the record at `0x500` names itself as
its parent and continues at the sentinel again. -/
def cyclicChain : World :=
  { twoSegments with
    stktop := fun _ => { stackbase := 0x500, gobuf := { sp := 0x20000, pc := 0x3000 } } }

/-- An output buffer that holds `0xdead` in every slot. -/
def dirty : Nat → Nat := fun _ => 0xdead

/-- Modelled from the spec: the lookup contract of the Function Metadata Index
(`findfunc`, whose code is not part of the sources). The descriptor returned for
an address is that of the function whose code range contains the address, so
the entry of that function is at or below the address. -/
def IndexSound (w : World) : Prop :=
  ∀ a f, w.findfunc a = some f → f.entry ≤ a

/-- Descriptor of `main.h` in the fixtures: exactly five arguments. -/
def fH : Func :=
  { name := "main.h", src := "h.go", entry := 0x2400, frame := 8, args := 5 }

/-- The task of `twoSegments` with `main.h` added to the function index. -/
def fiveArgs : World :=
  { twoSegments with
    findfunc := fun a =>
      if 0x2400 ≤ a ∧ a < 0x2500 then some fH else twoSegments.findfunc a }

/-! ## Frame records, printed text and segment transitions -/

/-- A real frame met by the walker: the descriptor found for it, its pc and
its sp. -/
structure Record where
  f : Func
  pc : Nat
  sp : Nat
deriving DecidableEq, Repr

/-- The real frames that the walker meets in its first `k` iterations from
`(pc, sp, lr, stk)`, as `frames`, each with its descriptor and sp. -/
def records (w : World) : Nat → Nat → Nat → Nat → Nat → List Record
  | 0, _, _, _, _ => []
  | k + 1, pc, sp, lr, stk =>
    if pc = w.lessstack then
      records w k (w.stktop stk).gobuf.pc (w.stktop stk).gobuf.sp
        (w.word (w.stktop stk).gobuf.sp) (w.stktop stk).stackbase
    else if pc ≤ 0x1000 then []
    else
      match w.findfunc (pc - 4) with
      | none => []
      | some f =>
        { f := f, pc := pc, sp := sp } ::
          records w k (if lr = 0 then w.word sp else lr)
            (if 0 ≤ f.frame then (((sp : Int) + f.frame) % 2 ^ 32).toNat else sp) 0 stk

/-- The text printed for a list of frames, the first of which is printed when
the count `n` of printed frames stands at the given value: for each frame its
header line and then its argument line. -/
def printrecords (w : World) : Nat → List Record → List Ev
  | _, [] => []
  | n, r :: rs => printheader w r.f r.pc n ++ printargline w r.f r.sp ++ printrecords w (n + 1) rs

/-- The number of newline characters in the literal text of an output. -/
def newlines : List Ev → Nat
  | [] => 0
  | Ev.prints t :: r => t.toList.count (Char.ofNat 10) + newlines r
  | _ :: r => newlines r

/-- The number of iterations of the main loop, run from `s`, that are segment
transitions (lines 29-36): the loop of `loop`, counting instead of returning
the state. -/
def crossings (w : World) (m : Int) : Nat → State → Nat
  | 0, _ => 0
  | fuel + 1, s =>
    if s.iter < 100 ∧ (s.n : Int) < m then
      match body w s with
      | none => 0
      | some s1 =>
        (if s.pc = w.lessstack then 1 else 0)
          + crossings w m fuel { s1 with iter := s1.iter + 1 }
    else 0

/-! ## Lemmas on the loop and on the buffer -/


/-- The loop body leaves the iteration counter alone; only `iter++` changes it. -/
theorem body_iter (w : World) (s s1 : State) (h : body w s = some s1) : s1.iter = s.iter := by
  unfold body at h
  split at h
  · cases h; rfl
  · split at h
    · cases h
    · split at h
      · cases h
      · cases h
        dsimp only
        split
        · rfl
        · split <;> rfl

/-- Once `iter` has reached 100 the loop does nothing, however far it is unfolded. -/
theorem loop_done (w : World) (m : Int) (fuel : Nat) (s : State) (h : 100 ≤ s.iter) :
    loop w m fuel s = s := by
  cases fuel with
  | zero => rfl
  | succ k =>
    have : ¬ s.iter < 100 := by omega
    simp [loop, this]

/-- The loop never takes `iter` beyond 100. -/
theorem loop_iter_le (w : World) (m : Int) :
    ∀ (fuel : Nat) (s : State), s.iter ≤ 100 → (loop w m fuel s).iter ≤ 100 := by
  intro fuel
  induction fuel with
  | zero => intro s h; exact h
  | succ k ih =>
    intro s h
    unfold loop
    split
    · rename_i hc
      cases hb : body w s with
      | none => exact h
      | some s1 =>
        have h1 := body_iter w s s1 hb
        exact ih _ (by simp only; omega)
    · exact h

/-- Unfolding the loop further than the `100 - iter` iterations it can make changes nothing. -/
theorem loop_fuel (w : World) (m : Int) (k : Nat) :
    ∀ (fuel : Nat) (s : State), 100 ≤ s.iter + fuel → loop w m (fuel + k) s = loop w m fuel s := by
  intro fuel
  induction fuel with
  | zero =>
    intro s h
    rw [loop_done w m _ s (by omega), loop_done w m _ s (by omega)]
  | succ j ih =>
    intro s h
    rw [show j + 1 + k = (j + k) + 1 by omega]
    unfold loop
    split
    · cases hb : body w s with
      | none => rfl
      | some s1 =>
        have h1 := body_iter w s s1 hb
        exact ih _ (by simp only; omega)
    · rfl

/-- The loop in collect mode: it stores the real frames met in the remaining
iterations, without the first `skip` of them and up to the remaining capacity
`m - n`, at the indices `n, n+1, ...`. -/
theorem loop_collect (w : World) (m : Int) :
    ∀ (fuel : Nat) (s : State) (b : Nat → Nat), s.pcbuf = some b → s.iter + fuel ≤ 100 →
      (loop w m fuel s).n
          = s.n + (((frames w fuel s.pc s.sp s.lr s.stk).drop s.skip.toNat).take
              (m - s.n).toNat).length
        ∧ (loop w m fuel s).out
          = s.out ++ writes s.n (((frames w fuel s.pc s.sp s.lr s.stk).drop s.skip.toNat).take
              (m - s.n).toNat)
        ∧ (loop w m fuel s).pcbuf
          = some (fill b s.n (((frames w fuel s.pc s.sp s.lr s.stk).drop s.skip.toNat).take
              (m - s.n).toNat)) := by
  intro fuel
  induction fuel with
  | zero =>
    intro s b hb _
    simp [loop, frames, writes, fill, hb]
  | succ k ih =>
    rintro ⟨pc, sp, lr, stk, skip, n, iter, pcbuf, out⟩ b hb hi
    simp only at hb hi
    subst hb
    by_cases hnm : (n : Int) < m
    · have hit : iter < 100 := by omega
      by_cases hls : pc = w.lessstack
      · have := ih { pc := (w.stktop stk).gobuf.pc, sp := (w.stktop stk).gobuf.sp,
                     lr := w.word (w.stktop stk).gobuf.sp, stk := (w.stktop stk).stackbase,
                     skip := skip, n := n, iter := iter + 1, pcbuf := some b, out := out } b rfl
                  (by simp only; omega)
        simpa [loop, body, frames, hnm, hit, hls] using this
      · by_cases hg : pc ≤ 0x1000
        · simp [loop, body, frames, hnm, hit, hls, hg, writes, fill]
        · cases hf : w.findfunc (pc - 4) with
          | none => simp [loop, body, frames, hnm, hit, hls, hg, hf, writes, fill]
          | some f =>
            by_cases hsk : 0 < skip
            · have := ih { pc := if lr = 0 then w.word sp else lr,
                           sp := if 0 ≤ f.frame then (((sp : Int) + f.frame) % 2 ^ 32).toNat else sp,
                           lr := 0, stk := stk,
                           skip := skip - 1, n := n, iter := iter + 1, pcbuf := some b, out := out } b rfl
                  (by simp only; omega)
              have hd : skip.toNat = (skip - 1).toNat + 1 := by omega
              simp only [loop, body, frames, hnm, hit, hls, hg, hf, hsk, and_self, if_true,
                if_false]
              rw [hd, List.drop_succ_cons]
              exact this
            · have := ih { pc := if lr = 0 then w.word sp else lr,
                           sp := if 0 ≤ f.frame then (((sp : Int) + f.frame) % 2 ^ 32).toNat else sp,
                           lr := 0, stk := stk,
                           skip := skip, n := n + 1, iter := iter + 1,
                           pcbuf := some (Function.update b n pc), out := out ++ [Ev.store n pc] }
                  (Function.update b n pc) rfl (by simp only; omega)
              have hd : skip.toNat = 0 := by omega
              have ht : (m - (n : Int)).toNat = (m - ((n : Int) + 1)).toNat + 1 := by omega
              simp only [Nat.cast_add, Nat.cast_one] at this
              obtain ⟨h1, h2, h3⟩ := this
              simp only [loop, body, frames, hnm, hit, hls, hg, hf, hsk, hd, and_self, if_true,
                if_false, List.drop_zero]
              rw [ht, List.take_succ_cons]
              simp only [writes, fill, List.length_cons]
              rw [hd, List.drop_zero] at h1 h2 h3
              refine ⟨by rw [h1]; omega, by rw [h2]; simp, h3⟩
    · have ht : (m - (n : Int)).toNat = 0 := by omega
      simp [loop, hnm, ht, writes, fill]

/-- The buffer after `fill`, slot by slot. -/
theorem fill_apply (L : List Nat) :
    ∀ (b : Nat → Nat) (n i : Nat),
      fill b n L i = if n ≤ i then (L[i - n]?).getD (b i) else b i := by
  induction L with
  | nil => intro b n i; simp [fill]
  | cons v vs ih =>
    intro b n i
    rw [fill, ih]
    by_cases h1 : n + 1 ≤ i
    · have h2 : n ≤ i := by omega
      have h3 : i - n = (i - (n + 1)) + 1 := by omega
      have h4 : i ≠ n := by omega
      simp [h1, h2, h3, Function.update_noteq h4]
    · by_cases h2 : n ≤ i
      · have h3 : i = n := by omega
        subst h3
        simp
      · have h4 : i ≠ n := by omega
        simp [h1, h2, Function.update_noteq h4]

/-- Reading back the slots that `fill` wrote from index 0 gives the stored list. -/
theorem map_fill_range (L : List Nat) (b : Nat → Nat) :
    (List.range L.length).map (fill b 0 L) = L := by
  apply List.ext_getElem
  · simp
  · intro i h1 h2
    simp at h1
    simp [fill_apply, h1]

/-- The log entries of `writes`, by index. -/
theorem writes_eq_map (L : List Nat) :
    ∀ n : Nat, writes n L = (List.range L.length).map (fun i => Ev.store (n + i) (L.getD i 0)) := by
  induction L with
  | nil => intro n; simp [writes]
  | cons v vs ih =>
    intro n
    rw [writes, ih, List.length_cons, List.range_succ_eq_map]
    simp [Nat.add_assoc, Nat.add_comm 1]

/-- The count, log and buffer of a collect call, in terms of `reportable`. -/
theorem gentraceback_collect (w : World) (pc0 sp lr0 : Nat) (g : G) (skip : Int)
    (b : Nat → Nat) (m : Int) :
    (gentraceback w pc0 sp lr0 g skip (some b) m).n
        = (((reportable w pc0 sp lr0 g).drop skip.toNat).take m.toNat).length
      ∧ (gentraceback w pc0 sp lr0 g skip (some b) m).out
        = writes 0 (((reportable w pc0 sp lr0 g).drop skip.toNat).take m.toNat)
      ∧ (gentraceback w pc0 sp lr0 g skip (some b) m).pcbuf
        = some (fill b 0 (((reportable w pc0 sp lr0 g).drop skip.toNat).take m.toNat)) := by
  have h := loop_collect w m 100 (start pc0 sp lr0 g skip (some b)) b rfl (by simp [start])
  simpa [gentraceback, reportable, start] using h

/-- The sequence a collect call returns, in terms of `reportable`. -/
theorem gentraceback_collected (w : World) (pc0 sp lr0 : Nat) (g : G) (skip : Int)
    (b : Nat → Nat) (m : Int) :
    (gentraceback w pc0 sp lr0 g skip (some b) m).collected
      = ((reportable w pc0 sp lr0 g).drop skip.toNat).take m.toNat := by
  obtain ⟨h1, _, h3⟩ := gentraceback_collect w pc0 sp lr0 g skip b m
  unfold State.collected
  have hb : (gentraceback w pc0 sp lr0 g skip (some b) m).buf
      = fill b 0 (((reportable w pc0 sp lr0 g).drop skip.toNat).take m.toNat) := by
    funext i
    simp [State.buf, h3]
  rw [hb, h1, map_fill_range]

/-- The returned sequence has `n` entries. -/
theorem collected_length (s : State) : s.collected.length = s.n := by
  simp [State.collected]

/-- C1. In collect mode the count that `gentraceback` returns, and so the one
that `callers` returns, lies between `0` and `max` whenever `max >= 0`, for
every `skip`, start and memory; the returned sequence has that many entries. -/
theorem count_le_max (w : World) (pc0 sp lr0 : Nat) (g : G) (skip : Int)
    (b : Nat → Nat) (m : Int) (hm : 0 ≤ m) :
    (0 ≤ ((gentraceback w pc0 sp lr0 g skip (some b) m).n : Int)
        ∧ ((gentraceback w pc0 sp lr0 g skip (some b) m).n : Int) ≤ m
        ∧ ((gentraceback w pc0 sp lr0 g skip (some b) m).collected.length : Int) ≤ m)
      ∧ (0 ≤ ((callers w skip (some b) m).n : Int)
        ∧ ((callers w skip (some b) m).n : Int) ≤ m
        ∧ ((callers w skip (some b) m).collected.length : Int) ≤ m) := by
  have key : ∀ pc0 sp lr0 g,
      ((gentraceback w pc0 sp lr0 g skip (some b) m).n : Int) ≤ m := by
    intro pc0 sp lr0 g
    have h := (gentraceback_collect w pc0 sp lr0 g skip b m).1
    have h2 : (((reportable w pc0 sp lr0 g).drop skip.toNat).take m.toNat).length ≤ m.toNat :=
      List.length_take_le _ _
    omega
  refine ⟨⟨Int.natCast_nonneg _, key _ _ _ _, ?_⟩, ⟨Int.natCast_nonneg _, ?_, ?_⟩⟩
  · rw [collected_length]; exact key _ _ _ _
  · exact key _ _ _ _
  · rw [collected_length]; exact key _ _ _ _

theorem count_le_max_witness :
    (0 : Int) ≤ 3
      ∧ 0 ≤ ((gentraceback twoSegments 0x2204 0x10000 0 ⟨0x500⟩ 0 (some dirty) 3).n : Int)
      ∧ ((gentraceback twoSegments 0x2204 0x10000 0 ⟨0x500⟩ 0 (some dirty) 3).n : Int) ≤ 3
      ∧ ((callers twoSegments 0 (some dirty) 3).n : Int) ≤ 3
      ∧ (callers twoSegments 0 (some dirty) 3).collected = [0x2204, 0x2110, 0x2120] :=
  have h := count_le_max twoSegments 0x2204 0x10000 0 ⟨0x500⟩ 0 dirty 3 (by decide)
  ⟨by decide, h.1.1, h.1.2.1, h.2.2.1, by decide⟩

/-- C2. For every input, `gentraceback` ends after at most 100 iterations of
its main loop: the iteration counter of the state it returns is at most 100, and
unfolding the loop any further than 100 times gives the same state. Nothing is
assumed about the segment chain, which may be cyclic. -/
theorem gentraceback_terminates (w : World) (pc0 sp lr0 : Nat) (g : G) (skip : Int)
    (pcbuf : Option (Nat → Nat)) (m : Int) :
    (gentraceback w pc0 sp lr0 g skip pcbuf m).iter ≤ 100
      ∧ ∀ k : Nat, loop w m (100 + k) (start pc0 sp lr0 g skip pcbuf)
          = gentraceback w pc0 sp lr0 g skip pcbuf m := by
  refine ⟨loop_iter_le w m 100 _ (by simp [start]), ?_⟩
  intro k
  exact loop_fuel w m k 100 _ (by simp [start])

/-- A walk into the cyclic chain uses up all 100 iterations and returns the two
frames it found before the sentinel. -/
theorem cyclic_chain_example :
    (gentraceback cyclicChain 0x2204 0x10000 0 ⟨0x500⟩ 0 (some dirty) 101).iter = 100
      ∧ (gentraceback cyclicChain 0x2204 0x10000 0 ⟨0x500⟩ 0 (some dirty) 101).collected
        = [0x2204, 0x2110] := by
  decide

/-- No real frame is met from an address that ends the walk. -/
theorem frames_stops (w : World) (e : Nat) (he : stops w e = true) (k sp lr stk : Nat) :
    frames w k e sp lr stk = [] := by
  cases k with
  | zero => rfl
  | succ k =>
    simp only [stops, Bool.and_eq_true, Bool.or_eq_true, decide_eq_true_eq,
      Option.isNone_iff_eq_none] at he
    obtain ⟨h1, h2⟩ := he
    rcases h2 with h2 | h2
    · simp [frames, h1, h2]
    · by_cases h3 : e ≤ 0x1000
      · simp [frames, h1, h3]
      · simp [frames, h1, h3, h2]

/-- On a fixture stack the walker meets exactly the frames of the fixture, one an
iteration, and then stands at the return address of the last one. -/
theorem frames_isStack (w : World) :
    ∀ (pcs : List Nat) (pc sp lr e : Nat), isStack w pcs pc sp lr e = true →
      ∃ sp1 lr1, ∀ k stk,
        frames w (pcs.length + k) pc sp lr stk = pcs ++ frames w k e sp1 lr1 stk := by
  intro pcs
  induction pcs with
  | nil =>
    intro pc sp lr e h
    simp only [isStack, decide_eq_true_eq] at h
    subst h
    exact ⟨sp, lr, fun k stk => by simp⟩
  | cons p ps ih =>
    intro pc sp lr e h
    simp only [isStack, Bool.and_eq_true, decide_eq_true_eq] at h
    obtain ⟨⟨⟨h1, h2⟩, h3⟩, h4⟩ := h
    subst h1
    cases hf : w.findfunc (pc - 4) with
    | none => simp [hf] at h4
    | some f =>
      simp only [hf, Bool.and_eq_true, decide_eq_true_eq] at h4
      obtain ⟨h5, h6⟩ := h4
      obtain ⟨sp1, lr1, h7⟩ := ih _ _ _ _ h6
      refine ⟨sp1, lr1, fun k stk => ?_⟩
      have h8 : ¬ pc ≤ 0x1000 := by omega
      rw [show (pc :: ps).length + k = (ps.length + k) + 1 by simp; omega]
      simp only [frames, h2, h8, hf, h5, if_true, if_false, List.cons_append]
      rw [h7]

/-- The sentinel is not a frame of a fixture stack. -/
theorem not_mem_isStack (w : World) :
    ∀ (pcs : List Nat) (pc sp lr e : Nat), isStack w pcs pc sp lr e = true →
      w.lessstack ∉ pcs := by
  intro pcs
  induction pcs with
  | nil => intro pc sp lr e _; simp
  | cons p ps ih =>
    intro pc sp lr e h
    simp only [isStack, Bool.and_eq_true, decide_eq_true_eq] at h
    obtain ⟨⟨⟨h1, h2⟩, h3⟩, h4⟩ := h
    cases hf : w.findfunc (p - 4) with
    | none => simp [hf] at h4
    | some f =>
      simp only [hf, Bool.and_eq_true, decide_eq_true_eq] at h4
      have := ih _ _ _ _ h4.2
      simp only [List.mem_cons, not_or]
      exact ⟨fun h => h2 h.symm, this⟩

/-- C3, amended. On a fixture stack of depth `d <= 100` inside one segment,
whose outermost return address ends the walk, the collect walk started at the
innermost frame with `skip = 0`, `lr = 0` and `max >= d` returns exactly `d` and
writes exactly the `d` frame addresses, innermost first, into the buffer. -/
theorem walk_depth (w : World) (pcs : List Nat) (pc0 sp e : Nat) (g : G)
    (b : Nat → Nat) (m : Int)
    (hfix : isStack w pcs pc0 sp 0 e = true) (hend : stops w e = true)
    (hcap : pcs.length ≤ 100) (hm : (pcs.length : Int) ≤ m) :
    (gentraceback w pc0 sp 0 g 0 (some b) m).n = pcs.length
      ∧ (gentraceback w pc0 sp 0 g 0 (some b) m).collected = pcs
      ∧ (gentraceback w pc0 sp 0 g 0 (some b) m).out
        = (List.range pcs.length).map (fun i => Ev.store i (pcs.getD i 0)) := by
  obtain ⟨sp1, lr1, h⟩ := frames_isStack w pcs pc0 sp 0 e hfix
  have hr : reportable w pc0 sp 0 g = pcs := by
    have h1 := h (100 - pcs.length) g.stackbase
    rw [show pcs.length + (100 - pcs.length) = 100 by omega, frames_stops w e hend] at h1
    simp only [reportable]
    rw [show (if pc0 = 0 then 0 else pc0) = pc0 by split <;> simp_all]
    simpa using h1
  have hL : ((reportable w pc0 sp 0 g).drop (0 : Int).toNat).take m.toNat = pcs := by
    rw [hr]
    simp only [Int.toNat_zero, List.drop_zero]
    exact List.take_of_length_le (by omega)
  obtain ⟨h1, h2, _⟩ := gentraceback_collect w pc0 sp 0 g 0 b m
  have h3 := gentraceback_collected w pc0 sp 0 g 0 b m
  rw [hL] at h1 h2 h3
  refine ⟨h1, h3, ?_⟩
  rw [h2, writes_eq_map]
  simp

theorem walk_depth_witness :
    isStack twoSegments [0x2120, 0x2010] 0x2120 0x20000 0 0 = true
      ∧ stops twoSegments 0 = true
      ∧ ([0x2120, 0x2010] : List Nat).length ≤ 100
      ∧ ((([0x2120, 0x2010] : List Nat).length : Nat) : Int) ≤ 2
      ∧ (gentraceback twoSegments 0x2120 0x20000 0 ⟨0x500⟩ 0 (some dirty) 2).n = 2
      ∧ (gentraceback twoSegments 0x2120 0x20000 0 ⟨0x500⟩ 0 (some dirty) 2).collected
        = [0x2120, 0x2010] :=
  have h := walk_depth twoSegments [0x2120, 0x2010] 0x2120 0x20000 0 ⟨0x500⟩ dirty 2
    (by decide) (by decide) (by decide) (by decide)
  ⟨by decide, by decide, by decide, by decide, h.1, h.2.1⟩

/-- C3 as stated fails beyond the iteration cap: on a fixture stack of depth
101 with `max = 101` the walk returns 100, not 101. -/
theorem walk_depth_cap_counterexample :
    isStack deepStack (List.replicate 101 0x2010) 0x2010 0x10000 0 0 = true
      ∧ stops deepStack 0 = true
      ∧ ((List.replicate 101 0x2010).length : Int) ≤ 101
      ∧ (gentraceback deepStack 0x2010 0x10000 0 ⟨0⟩ 0 (some dirty) 101).n = 100
      ∧ (gentraceback deepStack 0x2010 0x10000 0 ⟨0⟩ 0 (some dirty) 101).n
        ≠ (List.replicate 101 0x2010).length := by
  decide

/-- Entry `i < n` of the returned sequence is buffer slot `i`. -/
theorem collected_getElem? (s : State) (i : Nat) (h : i < s.n) :
    s.collected[i]? = some (s.buf i) := by
  simp [State.collected, List.getElem?_range h]

/-- On a two-segment fixture within the cap the real frames are those of the
running segment followed by those of the parent segment. -/
theorem reportable_crossing (w : World) (A B : List Nat) (pc0 sp lr0 e : Nat) (g : G)
    (hA : A ≠ [])
    (hfirst : isStack w A pc0 sp lr0 w.lessstack = true)
    (hparent : isStack w B (w.stktop g.stackbase).gobuf.pc (w.stktop g.stackbase).gobuf.sp
      (w.word (w.stktop g.stackbase).gobuf.sp) e = true)
    (hend : stops w e = true)
    (hcap : A.length + 1 + B.length ≤ 100) :
    reportable w pc0 sp lr0 g = A ++ B := by
  obtain ⟨sp1, lr1, h1⟩ := frames_isStack w A pc0 sp lr0 _ hfirst
  obtain ⟨sp2, lr2, h2⟩ := frames_isStack w B _ _ _ e hparent
  have hpc : pc0 ≠ 0 := by
    cases A with
    | nil => exact absurd rfl hA
    | cons a A1 =>
      simp only [isStack, Bool.and_eq_true, decide_eq_true_eq] at hfirst
      omega
  have h3 := h1 ((B.length + (100 - (A.length + 1 + B.length))) + 1) g.stackbase
  rw [show A.length + ((B.length + (100 - (A.length + 1 + B.length))) + 1) = 100 by omega] at h3
  simp only [reportable, hpc, if_false]
  rw [h3]
  simp only [frames, if_true]
  rw [h2, frames_stops w e hend]
  simp

/-- C7. On a fixture of two segments (the frames `A` of the running segment,
the last of which returns to the sentinel, and the frames `B` of the parent
segment from the saved continuation on, the last of which returns to an address
that ends the walk; all within the iteration cap), the collect walk returns the
frames of `A` followed at once by those of `B`, cut by `skip` in front and by
the capacity behind. The sentinel is not among them, adds nothing to the count
and takes no skip. -/
theorem segment_crossing (w : World) (A B : List Nat) (pc0 sp lr0 e : Nat) (g : G)
    (skip : Int) (b : Nat → Nat) (m : Int)
    (hA : A ≠ [])
    (hfirst : isStack w A pc0 sp lr0 w.lessstack = true)
    (hparent : isStack w B (w.stktop g.stackbase).gobuf.pc (w.stktop g.stackbase).gobuf.sp
      (w.word (w.stktop g.stackbase).gobuf.sp) e = true)
    (hend : stops w e = true)
    (hcap : A.length + 1 + B.length ≤ 100) :
    (gentraceback w pc0 sp lr0 g skip (some b) m).collected
        = ((A ++ B).drop skip.toNat).take m.toNat
      ∧ (gentraceback w pc0 sp lr0 g skip (some b) m).n
        = (((A ++ B).drop skip.toNat).take m.toNat).length
      ∧ w.lessstack ∉ (gentraceback w pc0 sp lr0 g skip (some b) m).collected := by
  have hr := reportable_crossing w A B pc0 sp lr0 e g hA hfirst hparent hend hcap
  have h1 := gentraceback_collected w pc0 sp lr0 g skip b m
  have h2 := (gentraceback_collect w pc0 sp lr0 g skip b m).1
  rw [hr] at h1 h2
  refine ⟨h1, h2, ?_⟩
  rw [h1]
  intro hmem
  have hmem2 := List.mem_of_mem_drop (List.mem_of_mem_take hmem)
  rcases List.mem_append.mp hmem2 with h | h
  · exact not_mem_isStack w A _ _ _ _ hfirst h
  · exact not_mem_isStack w B _ _ _ _ hparent h

theorem segment_crossing_witness :
    ([0x2204, 0x2110] : List Nat) ≠ []
      ∧ isStack twoSegments [0x2204, 0x2110] 0x2204 0x10000 0 twoSegments.lessstack = true
      ∧ isStack twoSegments [0x2120, 0x2010] 0x2120 0x20000 0x2010 0 = true
      ∧ stops twoSegments 0 = true
      ∧ ([0x2204, 0x2110] : List Nat).length + 1 + ([0x2120, 0x2010] : List Nat).length ≤ 100
      ∧ (gentraceback twoSegments 0x2204 0x10000 0 ⟨0x500⟩ 1 (some dirty) 10).collected
        = [0x2110, 0x2120, 0x2010]
      ∧ (gentraceback twoSegments 0x2204 0x10000 0 ⟨0x500⟩ 1 (some dirty) 10).n = 3 :=
  have h := segment_crossing twoSegments [0x2204, 0x2110] [0x2120, 0x2010] 0x2204 0x10000 0 0
    ⟨0x500⟩ 1 dirty 10 (by decide) (by decide) (by decide) (by decide) (by decide)
  ⟨by decide, by decide, by decide, by decide, by decide, h.1, h.2.1⟩

/-- C4, amended. For every nonzero initial pc at or below the guard threshold
`0x1000` that is not the sentinel address, and for every sp, lr, task, skip,
capacity, memory and function index, in either mode, `gentraceback` returns 0,
logs no store and no print, and leaves the buffer as it was. -/
theorem guard_pc_no_frames (w : World) (pc0 sp lr0 : Nat) (g : G) (skip : Int)
    (pcbuf : Option (Nat → Nat)) (m : Int)
    (hpos : 0 < pc0) (hguard : pc0 ≤ 0x1000) (hsent : pc0 ≠ w.lessstack) :
    (gentraceback w pc0 sp lr0 g skip pcbuf m).n = 0
      ∧ (gentraceback w pc0 sp lr0 g skip pcbuf m).out = []
      ∧ (gentraceback w pc0 sp lr0 g skip pcbuf m).pcbuf = pcbuf := by
  have hpc : pc0 ≠ 0 := by omega
  have hb : body w (start pc0 sp lr0 g skip pcbuf) = none := by
    simp [body, start, hpc, hsent, hguard]
  have hr : gentraceback w pc0 sp lr0 g skip pcbuf m = start pc0 sp lr0 g skip pcbuf := by
    unfold gentraceback
    rw [show (100 : Nat) = 99 + 1 from rfl, loop, hb]
    split <;> rfl
  rw [hr]
  exact ⟨rfl, rfl, rfl⟩

theorem guard_pc_no_frames_witness :
    (0 : Nat) < 0x800 ∧ (0x800 : Nat) ≤ 0x1000 ∧ 0x800 ≠ twoSegments.lessstack
      ∧ (gentraceback twoSegments 0x800 0x20008 0x2010 ⟨0x500⟩ 0 none 100).n = 0
      ∧ (gentraceback twoSegments 0x800 0x20008 0x2010 ⟨0x500⟩ 0 none 100).out = [] :=
  have h := guard_pc_no_frames twoSegments 0x800 0x20008 0x2010 ⟨0x500⟩ 0 none 100
    (by decide) (by decide) (by decide)
  ⟨by decide, by decide, by decide, h.1, h.2.1⟩

/-- C4 as stated fails at the initial pc `0`, which is below the guard threshold:
the walk then starts from `lr`, and with `lr = 0x2010` inside `main.main` it
returns one frame and stores its address. -/
theorem guard_pc_zero_counterexample :
    (0 : Nat) < 0x1000
      ∧ (gentraceback twoSegments 0 0x20008 0x2010 ⟨0x500⟩ 0 (some dirty) 10).n = 1
      ∧ (gentraceback twoSegments 0 0x20008 0x2010 ⟨0x500⟩ 0 (some dirty) 10).out
        = [Ev.store 0 0x2010]
      ∧ (gentraceback twoSegments 0 0x20008 0x2010 ⟨0x500⟩ 0 (some dirty) 10).collected
        = [0x2010] := by
  decide

/-- C5. With the same start, task, memory and function index, the collect walk
with `skip + 1` continues the one with `skip >= 0`: at every index `i` that is
valid in the second result and for which `i + 1` is valid in the first, the
second holds what the first holds at `i + 1`. -/
theorem skip_succ_continuation (w : World) (pc0 sp lr0 : Nat) (g : G) (skip : Int)
    (b1 b2 : Nat → Nat) (m : Int) (hskip : 0 ≤ skip) (i : Nat)
    (h2 : i < (gentraceback w pc0 sp lr0 g (skip + 1) (some b2) m).n)
    (h1 : i + 1 < (gentraceback w pc0 sp lr0 g skip (some b1) m).n) :
    (gentraceback w pc0 sp lr0 g (skip + 1) (some b2) m).buf i
        = (gentraceback w pc0 sp lr0 g skip (some b1) m).buf (i + 1)
      ∧ (gentraceback w pc0 sp lr0 g (skip + 1) (some b2) m).collected[i]?
        = (gentraceback w pc0 sp lr0 g skip (some b1) m).collected[i + 1]? := by
  have e2 := collected_getElem? _ i h2
  have e1 := collected_getElem? _ (i + 1) h1
  have c2 := gentraceback_collected w pc0 sp lr0 g (skip + 1) b2 m
  have c1 := gentraceback_collected w pc0 sp lr0 g skip b1 m
  have n2 := (gentraceback_collect w pc0 sp lr0 g (skip + 1) b2 m).1
  have n1 := (gentraceback_collect w pc0 sp lr0 g skip b1 m).1
  have l2 : i < m.toNat := by
    have := List.length_take_le m.toNat ((reportable w pc0 sp lr0 g).drop (skip + 1).toNat)
    omega
  have l1 : i + 1 < m.toNat := by
    have := List.length_take_le m.toNat ((reportable w pc0 sp lr0 g).drop skip.toNat)
    omega
  have hs : (skip + 1).toNat = skip.toNat + 1 := by omega
  have key : (gentraceback w pc0 sp lr0 g (skip + 1) (some b2) m).collected[i]?
      = (gentraceback w pc0 sp lr0 g skip (some b1) m).collected[i + 1]? := by
    rw [c2, c1, List.getElem?_take_of_lt l2, List.getElem?_take_of_lt l1,
      List.getElem?_drop, List.getElem?_drop, hs]
    congr 1
    omega
  refine ⟨?_, key⟩
  rw [e2, e1] at key
  exact Option.some.inj key

theorem skip_succ_continuation_witness :
    (0 : Int) ≤ 1
      ∧ 1 < (gentraceback twoSegments 0x2204 0x10000 0 ⟨0x500⟩ (1 + 1) (some dirty) 3).n
      ∧ 1 + 1 < (gentraceback twoSegments 0x2204 0x10000 0 ⟨0x500⟩ 1 (some dirty) 3).n
      ∧ (gentraceback twoSegments 0x2204 0x10000 0 ⟨0x500⟩ (1 + 1) (some dirty) 3).buf 1
        = (gentraceback twoSegments 0x2204 0x10000 0 ⟨0x500⟩ 1 (some dirty) 3).buf (1 + 1) :=
  ⟨by decide, by decide, by decide,
    (skip_succ_continuation twoSegments 0x2204 0x10000 0 ⟨0x500⟩ 1 dirty dirty 3
      (by decide) 1 (by decide) (by decide)).1⟩

/-- C6. For every skip `s >= 0` and capacity `m`, the sequence collected with
skip `s` and capacity `m` is the sequence collected on the same inputs with
skip `0` and capacity `s + m`, without its first `s` entries; the returned count
is the length of that shortened sequence. -/
theorem skip_drops_first (w : World) (pc0 sp lr0 : Nat) (g : G) (s : Int)
    (b1 b2 : Nat → Nat) (m : Int) (hs : 0 ≤ s) (hm : 0 ≤ m) :
    (gentraceback w pc0 sp lr0 g s (some b1) m).collected
        = ((gentraceback w pc0 sp lr0 g 0 (some b2) (s + m)).collected).drop s.toNat
      ∧ (gentraceback w pc0 sp lr0 g s (some b1) m).n
        = (((gentraceback w pc0 sp lr0 g 0 (some b2) (s + m)).collected).drop s.toNat).length := by
  have c1 := gentraceback_collected w pc0 sp lr0 g s b1 m
  have c0 := gentraceback_collected w pc0 sp lr0 g 0 b2 (s + m)
  have hsm : (s + m).toNat - s.toNat = m.toNat := by omega
  have key : (gentraceback w pc0 sp lr0 g s (some b1) m).collected
      = ((gentraceback w pc0 sp lr0 g 0 (some b2) (s + m)).collected).drop s.toNat := by
    rw [c1, c0, Int.toNat_zero, List.drop_zero, List.drop_take, hsm]
  refine ⟨key, ?_⟩
  rw [← key, collected_length]

theorem skip_drops_first_witness :
    (0 : Int) ≤ 1 ∧ (0 : Int) ≤ 2
      ∧ (gentraceback twoSegments 0x2204 0x10000 0 ⟨0x500⟩ 1 (some dirty) 2).collected
        = ((gentraceback twoSegments 0x2204 0x10000 0 ⟨0x500⟩ 0 (some dirty) (1 + 2)).collected).drop
            (1 : Int).toNat
      ∧ (gentraceback twoSegments 0x2204 0x10000 0 ⟨0x500⟩ 1 (some dirty) 2).collected
        = [0x2110, 0x2120] :=
  ⟨by decide, by decide,
    (skip_drops_first twoSegments 0x2204 0x10000 0 ⟨0x500⟩ 1 dirty dirty 2
      (by decide) (by decide)).1,
    by decide⟩

/-- C8. In collect mode the returned count `n` is the number of stores: the
log of the call is exactly the stores to the indices `0, 1, ..., n-1` in that
order, one each, of the values the buffer holds afterwards; every stored index
is below `max`; and every slot at an index `>= n` holds what it held before. -/
theorem count_is_stores (w : World) (pc0 sp lr0 : Nat) (g : G) (skip : Int)
    (b : Nat → Nat) (m : Int) :
    (gentraceback w pc0 sp lr0 g skip (some b) m).out
        = (List.range (gentraceback w pc0 sp lr0 g skip (some b) m).n).map
            (fun i => Ev.store i ((gentraceback w pc0 sp lr0 g skip (some b) m).buf i))
      ∧ (gentraceback w pc0 sp lr0 g skip (some b) m).out.length
        = (gentraceback w pc0 sp lr0 g skip (some b) m).n
      ∧ (∀ i v, Ev.store i v ∈ (gentraceback w pc0 sp lr0 g skip (some b) m).out →
          (i : Int) < m)
      ∧ (∀ i, (gentraceback w pc0 sp lr0 g skip (some b) m).n ≤ i →
          (gentraceback w pc0 sp lr0 g skip (some b) m).buf i = b i) := by
  obtain ⟨h1, h2, h3⟩ := gentraceback_collect w pc0 sp lr0 g skip b m
  have hlen : (((reportable w pc0 sp lr0 g).drop skip.toNat).take m.toNat).length ≤ m.toNat :=
    List.length_take_le _ _
  generalize ((reportable w pc0 sp lr0 g).drop skip.toNat).take m.toNat = L at h1 h2 h3 hlen
  have hbuf : ∀ i, (gentraceback w pc0 sp lr0 g skip (some b) m).buf i
      = (L[i]?).getD (b i) := by
    intro i
    simp [State.buf, h3, fill_apply]
  have hout : (gentraceback w pc0 sp lr0 g skip (some b) m).out
      = (List.range (gentraceback w pc0 sp lr0 g skip (some b) m).n).map
          (fun i => Ev.store i ((gentraceback w pc0 sp lr0 g skip (some b) m).buf i)) := by
    rw [h2, writes_eq_map, h1]
    apply List.map_congr_left
    intro i hi
    have hi2 : i < L.length := List.mem_range.mp hi
    rw [hbuf]
    simp [List.getD_eq_getElem?_getD, List.getElem?_eq_getElem hi2]
  refine ⟨hout, ?_, ?_, ?_⟩
  · rw [hout]; simp
  · intro i v hmem
    rw [hout, List.mem_map] at hmem
    obtain ⟨j, hj, hjv⟩ := hmem
    have hj2 := List.mem_range.mp hj
    injection hjv with hji _
    omega
  · intro i hi
    rw [hbuf, List.getElem?_eq_none (by omega)]
    rfl

theorem count_is_stores_witness :
    (gentraceback twoSegments 0x2204 0x10000 0 ⟨0x500⟩ 1 (some dirty) 2).out
        = [Ev.store 0 0x2110, Ev.store 1 0x2120]
      ∧ (gentraceback twoSegments 0x2204 0x10000 0 ⟨0x500⟩ 1 (some dirty) 2).n = 2
      ∧ (gentraceback twoSegments 0x2204 0x10000 0 ⟨0x500⟩ 1 (some dirty) 2).buf 2 = dirty 2 :=
  have h := count_is_stores twoSegments 0x2204 0x10000 0 ⟨0x500⟩ 1 dirty 2
  ⟨by decide, by decide, h.2.2.2 2 (by decide)⟩

/-- C9. A call with initial pc `0` and link register `lr0` behaves exactly as
the call with initial pc `lr0` and link register `0`: the two return the same
state, so the same count, buffer and output. -/
theorem nil_pc_substitution (w : World) (sp lr0 : Nat) (g : G) (skip : Int)
    (pcbuf : Option (Nat → Nat)) (m : Int) :
    gentraceback w 0 sp lr0 g skip pcbuf m = gentraceback w lr0 sp 0 g skip pcbuf m := by
  have h : start 0 sp lr0 g skip pcbuf = start lr0 sp 0 g skip pcbuf := by
    by_cases h0 : lr0 = 0
    · subst h0; rfl
    · simp [start, h0]
  simp only [gentraceback, h]

/-- The argument loop leaves at `i = 4` at the latest, so the iterations needed
from `i <= 4` are at most `5 - i`. -/
theorem printargs_fuel (w : World) (sp : Nat) (args : Int) (k : Nat) :
    ∀ (fuel i : Nat), i ≤ 4 → 5 ≤ fuel + i →
      printargs w sp args (fuel + k) i = printargs w sp args fuel i := by
  intro fuel
  induction fuel with
  | zero => intro i h1 h2; omega
  | succ j ih =>
    intro i h1 h2
    rw [show j + 1 + k = (j + k) + 1 by omega]
    unfold printargs
    by_cases h4 : 4 ≤ i
    · simp [h4]
    · rw [ih (i + 1) (by omega) (by omega)]

/-- C10. In report mode, a frame that is printed (no skip left) and whose
descriptor declares more than 5 arguments gets, after its header line, the
argument line with exactly 5 words, the stack words at `sp + 4`, ...,
`sp + 20` printed by `printhex` and separated by `", "`, followed by the
literal `", ..."`. Letting the argument loop run longer than 5 iterations
changes nothing. -/
theorem report_args_truncated (w : World) (s : State) (f : Func)
    (hmode : s.pcbuf = none) (hskip : s.skip ≤ 0)
    (hsent : s.pc ≠ w.lessstack) (hguard : 0x1000 < s.pc)
    (hfunc : w.findfunc (s.pc - 4) = some f) (hargs : 5 < f.args) :
    (∃ s1, body w s = some s1
        ∧ s1.n = s.n + 1
        ∧ s1.out = s.out ++ (printheader w f s.pc s.n ++
            [Ev.prints "\t", Ev.printS f.name, Ev.prints "(",
              Ev.printhex (w.word ((s.sp + 4) % 2 ^ 32)), Ev.prints ", ",
              Ev.printhex (w.word ((s.sp + 8) % 2 ^ 32)), Ev.prints ", ",
              Ev.printhex (w.word ((s.sp + 12) % 2 ^ 32)), Ev.prints ", ",
              Ev.printhex (w.word ((s.sp + 16) % 2 ^ 32)), Ev.prints ", ",
              Ev.printhex (w.word ((s.sp + 20) % 2 ^ 32)), Ev.prints ", ...",
              Ev.prints ")\n"]))
      ∧ ∀ k : Nat, printargs w s.sp f.args (5 + k) 0 = printargs w s.sp f.args 5 0 := by
  have hline : printargline w f s.sp =
      [Ev.prints "\t", Ev.printS f.name, Ev.prints "(",
        Ev.printhex (w.word ((s.sp + 4) % 2 ^ 32)), Ev.prints ", ",
        Ev.printhex (w.word ((s.sp + 8) % 2 ^ 32)), Ev.prints ", ",
        Ev.printhex (w.word ((s.sp + 12) % 2 ^ 32)), Ev.prints ", ",
        Ev.printhex (w.word ((s.sp + 16) % 2 ^ 32)), Ev.prints ", ",
        Ev.printhex (w.word ((s.sp + 20) % 2 ^ 32)), Ev.prints ", ...",
        Ev.prints ")\n"] := by
    have a0 : ((0 : Nat) : Int) < f.args := by omega
    have a1 : (((0 + 1 : Nat)) : Int) < f.args := by omega
    have a2 : (((0 + 1 + 1 : Nat)) : Int) < f.args := by omega
    have a3 : (((0 + 1 + 1 + 1 : Nat)) : Int) < f.args := by omega
    have a4 : (((0 + 1 + 1 + 1 + 1 : Nat)) : Int) < f.args := by omega
    simp only [printargline, printargs, a0, a1, a2, a3, a4, if_true]
    simp
  have hg : ¬ s.pc ≤ 0x1000 := by omega
  have hsk : ¬ 0 < s.skip := by omega
  refine ⟨?_, fun k => printargs_fuel w s.sp f.args k 5 0 (by omega) (by omega)⟩
  unfold body
  simp only [hsent, hg, hfunc, hsk, hmode, if_false, hline]
  exact ⟨_, rfl, rfl, rfl⟩

theorem report_args_truncated_witness :
    (start 0x2110 0x1000c 0 ⟨0x500⟩ 0 none).pcbuf = none
      ∧ (start 0x2110 0x1000c 0 ⟨0x500⟩ 0 none).skip ≤ 0
      ∧ (start 0x2110 0x1000c 0 ⟨0x500⟩ 0 none).pc ≠ twoSegments.lessstack
      ∧ 0x1000 < (start 0x2110 0x1000c 0 ⟨0x500⟩ 0 none).pc
      ∧ twoSegments.findfunc ((start 0x2110 0x1000c 0 ⟨0x500⟩ 0 none).pc - 4) = some fF
      ∧ 5 < fF.args
      ∧ ∃ s1, body twoSegments (start 0x2110 0x1000c 0 ⟨0x500⟩ 0 none) = some s1
        ∧ s1.n = 1
        ∧ s1.out =
          [Ev.printS "main.f", Ev.prints "+", Ev.printP 0x10,
            Ev.prints " ", Ev.printS "f.go", Ev.prints ":", Ev.printD 0x10, Ev.prints "\n",
            Ev.prints "\t", Ev.printS "main.f", Ev.prints "(",
            Ev.printhex 0x11, Ev.prints ", ", Ev.printhex 0x22, Ev.prints ", ",
            Ev.printhex 0x33, Ev.prints ", ", Ev.printhex 0x44, Ev.prints ", ",
            Ev.printhex 0x55, Ev.prints ", ...", Ev.prints ")\n"] :=
  ⟨rfl, by decide, by decide, by decide, by decide, by decide,
    (report_args_truncated twoSegments (start 0x2110 0x1000c 0 ⟨0x500⟩ 0 none) fF
      rfl (by decide) (by decide) (by decide) (by decide) (by decide)).1⟩

/-! ## The report line and one step of the walker -/

/-- A real frame in report mode with no skip left: the step prints the header
line and the argument line and counts the frame. -/
theorem body_report (w : World) (s : State) (f : Func)
    (hmode : s.pcbuf = none) (hskip : s.skip ≤ 0)
    (hsent : s.pc ≠ w.lessstack) (hguard : 0x1000 < s.pc)
    (hfunc : w.findfunc (s.pc - 4) = some f) :
    ∃ s1, body w s = some s1 ∧ s1.n = s.n + 1
      ∧ s1.out = s.out ++ (printheader w f s.pc s.n ++ printargline w f s.sp) := by
  have hg : ¬ s.pc ≤ 0x1000 := by omega
  have hsk : ¬ 0 < s.skip := by omega
  unfold body
  simp only [hsent, hg, hfunc, hsk, hmode, if_false]
  exact ⟨_, rfl, rfl, rfl⟩

/-- C11 (evaluation at the failing input). A printed frame whose descriptor
declares exactly 5 arguments gets the argument line with its 5 words and then
the marker `", ..."`, although no argument was left out. -/
theorem report_args_five_marker (w : World) (f : Func) (sp : Nat) (hargs : f.args = 5) :
    printargline w f sp =
      [Ev.prints "\t", Ev.printS f.name, Ev.prints "(",
        Ev.printhex (w.word ((sp + 4) % 2 ^ 32)), Ev.prints ", ",
        Ev.printhex (w.word ((sp + 8) % 2 ^ 32)), Ev.prints ", ",
        Ev.printhex (w.word ((sp + 12) % 2 ^ 32)), Ev.prints ", ",
        Ev.printhex (w.word ((sp + 16) % 2 ^ 32)), Ev.prints ", ",
        Ev.printhex (w.word ((sp + 20) % 2 ^ 32)), Ev.prints ", ...",
        Ev.prints ")\n"] := by
  simp [printargline, printargs, hargs]

theorem report_args_five_marker_witness :
    fH.args = 5
      ∧ (body fiveArgs (start 0x2410 0x1000c 0 ⟨0x500⟩ 0 none)).map State.out
        = some [Ev.printS "main.h", Ev.prints "+", Ev.printP 0x10,
            Ev.prints " ", Ev.printS "h.go", Ev.prints ":", Ev.printD 0x10, Ev.prints "\n",
            Ev.prints "\t", Ev.printS "main.h", Ev.prints "(",
            Ev.printhex 0x11, Ev.prints ", ", Ev.printhex 0x22, Ev.prints ", ",
            Ev.printhex 0x33, Ev.prints ", ", Ev.printhex 0x44, Ev.prints ", ",
            Ev.printhex 0x55, Ev.prints ", ...", Ev.prints ")\n"]
      ∧ printargline fiveArgs fH 0x1000c =
          [Ev.prints "\t", Ev.printS "main.h", Ev.prints "(",
            Ev.printhex 0x11, Ev.prints ", ", Ev.printhex 0x22, Ev.prints ", ",
            Ev.printhex 0x33, Ev.prints ", ", Ev.printhex 0x44, Ev.prints ", ",
            Ev.printhex 0x55, Ev.prints ", ...", Ev.prints ")\n"] :=
  ⟨rfl, by decide, report_args_five_marker fiveArgs fH 0x1000c rfl⟩

/-- The argument line for a descriptor that declares at most 4 arguments: as
many words as declared, and no marker. -/
theorem report_args_small (w : World) (f : Func) (sp : Nat) :
    (f.args ≤ 0 → printargs w sp f.args 5 0 = [])
      ∧ (f.args = 1 → printargs w sp f.args 5 0 = [Ev.printhex (w.word ((sp + 4) % 2 ^ 32))])
      ∧ (f.args = 2 → printargs w sp f.args 5 0 =
          [Ev.printhex (w.word ((sp + 4) % 2 ^ 32)), Ev.prints ", ",
            Ev.printhex (w.word ((sp + 8) % 2 ^ 32))])
      ∧ (f.args = 3 → printargs w sp f.args 5 0 =
          [Ev.printhex (w.word ((sp + 4) % 2 ^ 32)), Ev.prints ", ",
            Ev.printhex (w.word ((sp + 8) % 2 ^ 32)), Ev.prints ", ",
            Ev.printhex (w.word ((sp + 12) % 2 ^ 32))])
      ∧ (f.args = 4 → printargs w sp f.args 5 0 =
          [Ev.printhex (w.word ((sp + 4) % 2 ^ 32)), Ev.prints ", ",
            Ev.printhex (w.word ((sp + 8) % 2 ^ 32)), Ev.prints ", ",
            Ev.printhex (w.word ((sp + 12) % 2 ^ 32)), Ev.prints ", ",
            Ev.printhex (w.word ((sp + 16) % 2 ^ 32))]) := by
  refine ⟨?_, ?_, ?_, ?_, ?_⟩
  · intro h
    simpa [printargs] using h
  all_goals
    intro h
    simp [printargs, h]

/-- The function index of the fixture `twoSegments` keeps the lookup contract. -/
theorem twoSegments_sound : IndexSound twoSegments := by
  intro a f h
  simp only [twoSegments] at h
  split at h
  · cases h; simp only [fMain]; omega
  · split at h
    · cases h; simp only [fF]; omega
    · split at h
      · cases h; simp only [fG]; omega
      · cases h

/-- C12. With a function index that keeps its lookup contract, for every frame
printed in report mode the header line carries `funcline(f, tracepc)`, where
the address `tracepc` is `pc` unchanged for the innermost (first printed)
frame, `n = 0`, and `pc - 4` (`4 = sizeof(uintptr)`) for every frame printed
after it, `n > 0`. -/
theorem funcline_address (w : World) (s : State) (f : Func)
    (hindex : IndexSound w)
    (hmode : s.pcbuf = none) (hskip : s.skip ≤ 0)
    (hsent : s.pc ≠ w.lessstack) (hguard : 0x1000 < s.pc)
    (hfunc : w.findfunc (s.pc - 4) = some f) :
    (∃ s1, body w s = some s1
        ∧ s1.out = s.out ++
            ([Ev.printS f.name]
              ++ (if f.entry < s.pc then [Ev.prints "+", Ev.printP (s.pc - f.entry)] else [])
              ++ [Ev.prints " ", Ev.printS f.src, Ev.prints ":",
                  Ev.printD (w.funcline f (tracepc f s.n s.pc)), Ev.prints "\n"]
              ++ printargline w f s.sp))
      ∧ (s.n = 0 → tracepc f s.n s.pc = s.pc)
      ∧ (0 < s.n → tracepc f s.n s.pc = s.pc - 4) := by
  refine ⟨?_, ?_, ?_⟩
  · obtain ⟨s1, h1, _, h3⟩ := body_report w s f hmode hskip hsent hguard hfunc
    exact ⟨s1, h1, by rw [h3]; rfl⟩
  · intro h
    simp [tracepc, h]
  · intro h1
    have h2 := hindex _ _ hfunc
    have : f.entry < s.pc := by omega
    simp [tracepc, h1, this]

theorem funcline_address_witness :
    IndexSound twoSegments
      ∧ twoSegments.findfunc (0x2110 - 4) = some fF
      ∧ tracepc fF 1 0x2110 = 0x2110 - 4
      ∧ tracepc fG 0 0x2204 = 0x2204
      ∧ (traceback twoSegments 0x2204 0x10000 0 ⟨0x500⟩).out.take 23 =
          [Ev.printS "main.g", Ev.prints "+", Ev.printP 4, Ev.prints " ", Ev.printS "g.go",
            Ev.prints ":", Ev.printD (twoSegments.funcline fG 0x2204), Ev.prints "\n"]
            ++ printargline twoSegments fG 0x10000
            ++ [Ev.printS "main.f", Ev.prints "+", Ev.printP 0x10, Ev.prints " ",
                Ev.printS "f.go", Ev.prints ":",
                Ev.printD (twoSegments.funcline fF (0x2110 - 4)), Ev.prints "\n"] :=
  have h := funcline_address twoSegments
    { pc := 0x2110, sp := 0x1000c, lr := 0, stk := 0x500, skip := 0, n := 1, iter := 1,
      pcbuf := none, out := [] } fF twoSegments_sound rfl (by decide) (by decide) (by decide)
    (by decide)
  ⟨twoSegments_sound, by decide, h.2.2 (by decide), by decide, by decide⟩

/-- The argument loop does not consult the function index. -/
theorem printargs_findfunc (w : World) (ff : Nat → Option Func) (sp : Nat) (args : Int) :
    ∀ (fuel i : Nat),
      printargs { w with findfunc := ff } sp args fuel i = printargs w sp args fuel i := by
  intro fuel
  induction fuel with
  | zero => intro i; rfl
  | succ k ih =>
    intro i
    simp only [printargs, ih]

/-- C13, amended. For every pc the walker tests as a candidate frame (a pc
other than the sentinel) the loop is left exactly when the pc is at or below
the guard threshold `0x1000` or the lookup of `pc - 4` fails; and `pc - 4` is
the only address at which the function index is asked: a function index that
answers the same at `pc - 4` gives the same step. -/
theorem lookup_address (w : World) (s : State) (hsent : s.pc ≠ w.lessstack) :
    (body w s = none ↔ (s.pc ≤ 0x1000 ∨ w.findfunc (s.pc - 4) = none))
      ∧ ∀ ff : Nat → Option Func, ff (s.pc - 4) = w.findfunc (s.pc - 4) →
          body { w with findfunc := ff } s = body w s := by
  constructor
  · unfold body
    simp only [hsent, if_false]
    by_cases hg : s.pc ≤ 0x1000
    · simp [hg]
    · cases hf : w.findfunc (s.pc - 4) with
      | none => simp [hg]
      | some f => simp [hg]
  · intro ff hff
    have hh : ∀ f pc n, printheader { w with findfunc := ff } f pc n = printheader w f pc n :=
      fun _ _ _ => rfl
    have ha : ∀ f sp, printargline { w with findfunc := ff } f sp = printargline w f sp := by
      intro f sp
      simp only [printargline, printargs_findfunc]
    unfold body
    simp only [hff, hh, ha]

theorem lookup_address_witness :
    (start 0x2110 0x1000c 0 ⟨0x500⟩ 0 none).pc ≠ twoSegments.lessstack
      ∧ (body twoSegments (start 0x2110 0x1000c 0 ⟨0x500⟩ 0 none) = none
          ↔ ((start 0x2110 0x1000c 0 ⟨0x500⟩ 0 none).pc ≤ 0x1000
            ∨ twoSegments.findfunc ((start 0x2110 0x1000c 0 ⟨0x500⟩ 0 none).pc - 4) = none))
      ∧ twoSegments.findfunc (0x2110 - 4) = some fF :=
  ⟨by decide,
    (lookup_address twoSegments (start 0x2110 0x1000c 0 ⟨0x500⟩ 0 none) (by decide)).1,
    by decide⟩

/-- C13 as stated fails where the lookups at `pc - 1` and at `pc - 4` differ:
for pc `0x2302` the function index knows `0x22fe` (`main.g`) but not `0x2301`,
and the walk does not stop but reports the frame. -/
theorem lookup_address_counterexample :
    twoSegments.findfunc (0x2302 - 1) = none
      ∧ twoSegments.findfunc (0x2302 - 4) = some fG
      ∧ (0x1000 : Nat) < 0x2302
      ∧ (body twoSegments (start 0x2302 0x10000 0 ⟨0x500⟩ 0 (some dirty))).isSome = true
      ∧ (gentraceback twoSegments 0x2302 0x10000 0 ⟨0x500⟩ 0 (some dirty) 1).n = 1
      ∧ (gentraceback twoSegments 0x2302 0x10000 0 ⟨0x500⟩ 0 (some dirty) 1).collected
        = [0x2302] := by
  decide

/-- C14. One step of the walker on a real frame (pc not the sentinel, above the
guard threshold, resolved to `f`), in any mode and with any skip: the next pc is
`lr` if `lr` is nonzero and the word at the old `sp` otherwise, the next `lr`
is `0`, and the next `sp` is `sp + f.frame` (as a 32-bit address) if `f.frame`
is non-negative and `sp` if it is negative. The segment pointer stays. -/
theorem walker_step (w : World) (s : State) (f : Func)
    (hsent : s.pc ≠ w.lessstack) (hguard : 0x1000 < s.pc)
    (hfunc : w.findfunc (s.pc - 4) = some f) :
    ∃ s1, body w s = some s1
      ∧ s1.pc = (if s.lr ≠ 0 then s.lr else w.word s.sp)
      ∧ s1.lr = 0
      ∧ (0 ≤ f.frame → s1.sp = (((s.sp : Int) + f.frame) % 2 ^ 32).toNat)
      ∧ (0 ≤ f.frame → (s.sp : Int) + f.frame < 2 ^ 32 → (s1.sp : Int) = s.sp + f.frame)
      ∧ (f.frame < 0 → s1.sp = s.sp)
      ∧ s1.stk = s.stk := by
  have hg : ¬ s.pc ≤ 0x1000 := by omega
  have key : ∀ s0 : State, s0.lr = s.lr → s0.sp = s.sp → s0.stk = s.stk →
      ∃ s1, some ({ s0 with
          pc := if s0.lr = 0 then w.word s0.sp else s0.lr
          lr := 0
          sp := if 0 ≤ f.frame then (((s0.sp : Int) + f.frame) % 2 ^ 32).toNat else s0.sp } : State)
          = some s1
        ∧ s1.pc = (if s.lr ≠ 0 then s.lr else w.word s.sp)
        ∧ s1.lr = 0
        ∧ (0 ≤ f.frame → s1.sp = (((s.sp : Int) + f.frame) % 2 ^ 32).toNat)
        ∧ (0 ≤ f.frame → (s.sp : Int) + f.frame < 2 ^ 32 → (s1.sp : Int) = s.sp + f.frame)
        ∧ (f.frame < 0 → s1.sp = s.sp)
        ∧ s1.stk = s.stk := by
    intro s0 h1 h2 h3
    refine ⟨_, rfl, ?_, rfl, ?_, ?_, ?_, h3⟩
    · simp only [h1, h2]
      by_cases hl : s.lr = 0 <;> simp [hl]
    · intro hf
      simp only [h2, hf, if_true]
    · intro hf hlt
      simp only [h2, hf, if_true]
      have hnn : (0 : Int) ≤ (s.sp : Int) + f.frame := by omega
      rw [Int.toNat_of_nonneg (Int.emod_nonneg _ (by norm_num)), Int.emod_eq_of_lt hnn hlt]
    · intro hf
      have : ¬ 0 ≤ f.frame := by omega
      simp only [h2, this, if_false]
  unfold body
  simp only [hsent, hg, hfunc, if_false]
  apply key
  · split
    · rfl
    · split <;> rfl
  · split
    · rfl
    · split <;> rfl
  · split
    · rfl
    · split <;> rfl

theorem walker_step_witness :
    (start 0x2204 0x10000 0 ⟨0x500⟩ 3 none).pc ≠ twoSegments.lessstack
      ∧ 0x1000 < (start 0x2204 0x10000 0 ⟨0x500⟩ 3 none).pc
      ∧ twoSegments.findfunc ((start 0x2204 0x10000 0 ⟨0x500⟩ 3 none).pc - 4) = some fG
      ∧ ∃ s1, body twoSegments (start 0x2204 0x10000 0 ⟨0x500⟩ 3 none) = some s1
        ∧ s1.pc = 0x2110 ∧ s1.lr = 0 ∧ s1.sp = 0x1000c :=
  have h := walker_step twoSegments (start 0x2204 0x10000 0 ⟨0x500⟩ 3 none) fG
    (by decide) (by decide) (by decide)
  ⟨by decide, by decide, by decide,
    h.elim fun s1 hs => ⟨s1, hs.1, hs.2.1, hs.2.2.1, hs.2.2.2.1 (by decide)⟩⟩

/-- C15. With a function index that keeps its lookup contract, for every frame
printed in report mode the header line is the function name, then `+` and the
offset `pc - entry` exactly when that offset is not zero, then the source file
and the resolved line number. The pc of such a frame lies above the entry of
its function, so the offset is positive and the line carries it. -/
theorem header_offset (w : World) (s : State) (f : Func)
    (hindex : IndexSound w)
    (hmode : s.pcbuf = none) (hskip : s.skip ≤ 0)
    (hsent : s.pc ≠ w.lessstack) (hguard : 0x1000 < s.pc)
    (hfunc : w.findfunc (s.pc - 4) = some f) :
    (∃ s1, body w s = some s1
        ∧ s1.out = s.out ++ (printheader w f s.pc s.n ++ printargline w f s.sp))
      ∧ printheader w f s.pc s.n =
          [Ev.printS f.name]
            ++ (if (s.pc : Int) - f.entry ≠ 0
                then [Ev.prints "+", Ev.printP ((s.pc : Int) - f.entry).toNat] else [])
            ++ [Ev.prints " ", Ev.printS f.src, Ev.prints ":",
                Ev.printD (w.funcline f (tracepc f s.n s.pc)), Ev.prints "\n"]
      ∧ 0 < (s.pc : Int) - f.entry
      ∧ printheader w f s.pc s.n =
          [Ev.printS f.name, Ev.prints "+", Ev.printP (s.pc - f.entry),
            Ev.prints " ", Ev.printS f.src, Ev.prints ":",
            Ev.printD (w.funcline f (tracepc f s.n s.pc)), Ev.prints "\n"] := by
  have h2 := hindex _ _ hfunc
  have hlt : f.entry < s.pc := by omega
  have hne : (s.pc : Int) - f.entry ≠ 0 := by omega
  have hv : ((s.pc : Int) - f.entry).toNat = s.pc - f.entry := by omega
  refine ⟨?_, ?_, by omega, ?_⟩
  · obtain ⟨s1, h1, _, h3⟩ := body_report w s f hmode hskip hsent hguard hfunc
    exact ⟨s1, h1, h3⟩
  · simp only [printheader, hlt, hne, hv, if_true, ne_eq, not_false_eq_true]
  · simp [printheader, hlt]

theorem header_offset_witness :
    IndexSound twoSegments
      ∧ (start 0x2110 0x1000c 0 ⟨0x500⟩ 0 none).pcbuf = none
      ∧ (start 0x2110 0x1000c 0 ⟨0x500⟩ 0 none).skip ≤ 0
      ∧ (start 0x2110 0x1000c 0 ⟨0x500⟩ 0 none).pc ≠ twoSegments.lessstack
      ∧ 0x1000 < (start 0x2110 0x1000c 0 ⟨0x500⟩ 0 none).pc
      ∧ twoSegments.findfunc ((start 0x2110 0x1000c 0 ⟨0x500⟩ 0 none).pc - 4) = some fF
      ∧ printheader twoSegments fF 0x2110 0 =
          [Ev.printS "main.f", Ev.prints "+", Ev.printP 0x10,
            Ev.prints " ", Ev.printS "f.go", Ev.prints ":", Ev.printD 0x10, Ev.prints "\n"] :=
  have h := header_offset twoSegments (start 0x2110 0x1000c 0 ⟨0x500⟩ 0 none) fF
    twoSegments_sound rfl (by decide) (by decide) (by decide) (by decide)
  ⟨twoSegments_sound, rfl, by decide, by decide, by decide, by decide, h.2.2.2⟩

/-! ## The walk in report mode -/

/-- The loop in report mode: it prints the real frames met in the remaining
iterations, without the first `skip` of them and up to the remaining capacity
`m - n`, and counts them. -/
theorem loop_report (w : World) (m : Int) :
    ∀ (fuel : Nat) (s : State), s.pcbuf = none → s.iter + fuel ≤ 100 →
      (loop w m fuel s).n
          = s.n + (((records w fuel s.pc s.sp s.lr s.stk).drop s.skip.toNat).take
              (m - s.n).toNat).length
        ∧ (loop w m fuel s).out
          = s.out ++ printrecords w s.n
              (((records w fuel s.pc s.sp s.lr s.stk).drop s.skip.toNat).take (m - s.n).toNat)
        ∧ (loop w m fuel s).pcbuf = none := by
  intro fuel
  induction fuel with
  | zero =>
    intro s hb _
    simp [loop, records, printrecords, hb]
  | succ k ih =>
    rintro ⟨pc, sp, lr, stk, skip, n, iter, pcbuf, out⟩ hb hi
    simp only at hb hi
    subst hb
    by_cases hnm : (n : Int) < m
    · have hit : iter < 100 := by omega
      by_cases hls : pc = w.lessstack
      · have := ih { pc := (w.stktop stk).gobuf.pc, sp := (w.stktop stk).gobuf.sp,
                     lr := w.word (w.stktop stk).gobuf.sp, stk := (w.stktop stk).stackbase,
                     skip := skip, n := n, iter := iter + 1, pcbuf := none, out := out } rfl
                  (by simp only; omega)
        simpa [loop, body, records, hnm, hit, hls] using this
      · by_cases hg : pc ≤ 0x1000
        · simp [loop, body, records, hnm, hit, hls, hg, printrecords]
        · cases hf : w.findfunc (pc - 4) with
          | none => simp [loop, body, records, hnm, hit, hls, hg, hf, printrecords]
          | some f =>
            by_cases hsk : 0 < skip
            · have := ih { pc := if lr = 0 then w.word sp else lr,
                           sp := if 0 ≤ f.frame then (((sp : Int) + f.frame) % 2 ^ 32).toNat else sp,
                           lr := 0, stk := stk,
                           skip := skip - 1, n := n, iter := iter + 1, pcbuf := none, out := out }
                  rfl (by simp only; omega)
              have hd : skip.toNat = (skip - 1).toNat + 1 := by omega
              simp only [loop, body, records, hnm, hit, hls, hg, hf, hsk, and_self, if_true,
                if_false]
              rw [hd, List.drop_succ_cons]
              exact this
            · have := ih { pc := if lr = 0 then w.word sp else lr,
                           sp := if 0 ≤ f.frame then (((sp : Int) + f.frame) % 2 ^ 32).toNat else sp,
                           lr := 0, stk := stk,
                           skip := skip, n := n + 1, iter := iter + 1,
                           pcbuf := none,
                           out := out ++ (printheader w f pc n ++ printargline w f sp) }
                  rfl (by simp only; omega)
              have hd : skip.toNat = 0 := by omega
              have ht : (m - (n : Int)).toNat = (m - ((n : Int) + 1)).toNat + 1 := by omega
              simp only [Nat.cast_add, Nat.cast_one] at this
              obtain ⟨h1, h2, h3⟩ := this
              simp only [loop, body, records, hnm, hit, hls, hg, hf, hsk, hd, and_self, if_true,
                if_false, List.drop_zero]
              rw [ht, List.take_succ_cons]
              simp only [printrecords, List.length_cons]
              rw [hd, List.drop_zero] at h1 h2
              refine ⟨by rw [h1]; omega, by rw [h2]; simp, h3⟩
    · have ht : (m - (n : Int)).toNat = 0 := by omega
      simp [loop, hnm, ht, printrecords]

/-- The pcs of `records` are `frames`. -/
theorem records_pc (w : World) :
    ∀ (k pc sp lr stk : Nat),
      (records w k pc sp lr stk).map Record.pc = frames w k pc sp lr stk := by
  intro k
  induction k with
  | zero => intro pc sp lr stk; rfl
  | succ k ih =>
    intro pc sp lr stk
    unfold records frames
    split
    · exact ih _ _ _ _
    · split
      · rfl
      · split
        · rfl
        · simp only [List.map_cons, ih]

/-- Every frame of `records` is above the guard threshold, is not the sentinel
and was found by the function index at `pc - 4`. -/
theorem records_real (w : World) :
    ∀ (k pc sp lr stk : Nat) (r : Record), r ∈ records w k pc sp lr stk →
      0x1000 < r.pc ∧ r.pc ≠ w.lessstack ∧ w.findfunc (r.pc - 4) = some r.f := by
  intro k
  induction k with
  | zero => intro pc sp lr stk r h; simp [records] at h
  | succ k ih =>
    intro pc sp lr stk r h
    unfold records at h
    split at h
    · exact ih _ _ _ _ r h
    · split at h
      · simp at h
      · rename_i hs hg
        split at h
        · simp at h
        · rename_i f hf
          rcases List.mem_cons.mp h with h1 | h1
          · subst h1
            exact ⟨by simp only; omega, hs, hf⟩
          · exact ih _ _ _ _ r h1

/-- At most one frame is met in an iteration. -/
theorem records_length (w : World) :
    ∀ (k pc sp lr stk : Nat), (records w k pc sp lr stk).length ≤ k := by
  intro k
  induction k with
  | zero => intro pc sp lr stk; simp [records]
  | succ k ih =>
    intro pc sp lr stk
    unfold records
    split
    · exact Nat.le_succ_of_le (ih _ _ _ _)
    · split
      · simp
      · split
        · simp
        · simp only [List.length_cons]
          exact Nat.succ_le_succ (ih _ _ _ _)

/-- The count and output of a report call, in terms of `records`. -/
theorem gentraceback_report (w : World) (pc0 sp lr0 : Nat) (g : G) (skip : Int) (m : Int) :
    (gentraceback w pc0 sp lr0 g skip none m).n
        = (((records w 100 (if pc0 = 0 then lr0 else pc0) sp (if pc0 = 0 then 0 else lr0)
              g.stackbase).drop skip.toNat).take m.toNat).length
      ∧ (gentraceback w pc0 sp lr0 g skip none m).out
        = printrecords w 0
            (((records w 100 (if pc0 = 0 then lr0 else pc0) sp (if pc0 = 0 then 0 else lr0)
              g.stackbase).drop skip.toNat).take m.toNat)
      ∧ (gentraceback w pc0 sp lr0 g skip none m).pcbuf = none := by
  have h := loop_report w m 100 (start pc0 sp lr0 g skip none) rfl (by simp [start])
  simpa [gentraceback, start] using h

/-- The newline count of a concatenation. -/
theorem newlines_append (a b : List Ev) : newlines (a ++ b) = newlines a + newlines b := by
  induction a with
  | nil => simp [newlines]
  | cons e r ih =>
    cases e <;> simp [newlines, ih, Nat.add_assoc]

/-- The words and separators of the argument loop hold no newline. -/
theorem newlines_printargs (w : World) (sp : Nat) (args : Int) :
    ∀ (fuel i : Nat), newlines (printargs w sp args fuel i) = 0 := by
  have e1 : ", ".toList.count (Char.ofNat 10) = 0 := by decide
  have e2 : ", ...".toList.count (Char.ofNat 10) = 0 := by decide
  intro fuel
  induction fuel with
  | zero => intro i; rfl
  | succ k ih =>
    intro i
    unfold printargs
    split
    · simp only [newlines_append]
      have h1 : newlines (if i ≠ 0 then [Ev.prints ", "] else []) = 0 := by
        split <;> simp [newlines, e1]
      have h2 : newlines (if 4 ≤ i then [Ev.prints ", ..."]
          else printargs w sp args k (i + 1)) = 0 := by
        split
        · simp [newlines, e2]
        · exact ih _
      rw [h1, h2]
      simp [newlines]
    · rfl

/-- The header line is one line: its literal text holds one newline, at its end. -/
theorem printheader_line (w : World) (f : Func) (pc n : Nat) :
    newlines (printheader w f pc n) = 1
      ∧ (printheader w f pc n).getLast? = some (Ev.prints "\n") := by
  have e1 : "+".toList.count (Char.ofNat 10) = 0 := by decide
  have e2 : " ".toList.count (Char.ofNat 10) = 0 := by decide
  have e3 : ":".toList.count (Char.ofNat 10) = 0 := by decide
  have e4 : "\n".toList.count (Char.ofNat 10) = 1 := by decide
  unfold printheader
  constructor
  · simp only [newlines_append]
    have h1 : newlines (if f.entry < pc then [Ev.prints "+", Ev.printP (pc - f.entry)]
        else []) = 0 := by
      split <;> simp [newlines, e1]
    rw [h1]
    simp [newlines, e2, e3, e4]
  · have h : ∀ a b c d e : Ev, ∀ l : List Ev,
        (a :: (l ++ [b, c, d, e, Ev.prints "\n"])).getLast? = some (Ev.prints "\n") := by
      intro a b c d e l
      have := List.getLast?_concat (a := Ev.prints "\n") (a :: (l ++ [b, c, d, e]))
      simpa using this
    exact h _ _ _ _ _ _

/-- The argument line is one line: it starts with a tab, and its literal text
holds one newline, at its end. -/
theorem printargline_line (w : World) (f : Func) (sp : Nat) :
    newlines (printargline w f sp) = 1
      ∧ (printargline w f sp).head? = some (Ev.prints "\t")
      ∧ (printargline w f sp).getLast? = some (Ev.prints ")\n") := by
  have e1 : "\t".toList.count (Char.ofNat 10) = 0 := by decide
  have e2 : "(".toList.count (Char.ofNat 10) = 0 := by decide
  have e3 : ")\n".toList.count (Char.ofNat 10) = 1 := by decide
  unfold printargline
  refine ⟨?_, ?_, ?_⟩
  · simp only [newlines_append, newlines_printargs]
    simp [newlines, e1, e2, e3]
  · simp
  · have := List.getLast?_concat (a := Ev.prints ")\n")
      ([Ev.prints "\t", Ev.printS f.name, Ev.prints "("] ++ printargs w sp f.args 5 0)
    simpa using this

/-- C16. The routine `traceback` is `gentraceback` with `skip = 0`, no buffer
and the cap 100. For every input it prints at most 100 frame records and
returns their number; the records are those of the frames the walk meets,
innermost first (the addresses the collector returns for the same start), each
printed as its header line followed by its argument line; a header line and an
argument line are one line each, the argument line starting with a tab; and no
record is for the sentinel. -/
theorem traceback_records (w : World) (pc0 sp lr : Nat) (g : G) :
    traceback w pc0 sp lr g = gentraceback w pc0 sp lr g 0 none 100
      ∧ (∃ recs : List Record,
          recs.length = (traceback w pc0 sp lr g).n
            ∧ recs.length ≤ 100
            ∧ (traceback w pc0 sp lr g).out = printrecords w 0 recs
            ∧ (∀ b, recs.map Record.pc
                = (gentraceback w pc0 sp lr g 0 (some b) 100).collected)
            ∧ (∀ r ∈ recs, r.pc ≠ w.lessstack ∧ w.findfunc (r.pc - 4) = some r.f))
      ∧ (∀ (r : Record) (n : Nat) (rs : List Record),
          printrecords w n (r :: rs)
            = printheader w r.f r.pc n ++ printargline w r.f r.sp ++ printrecords w (n + 1) rs)
      ∧ (∀ (f : Func) (pc sp n : Nat),
          newlines (printheader w f pc n) = 1
            ∧ (printheader w f pc n).getLast? = some (Ev.prints "\n")
            ∧ newlines (printargline w f sp) = 1
            ∧ (printargline w f sp).head? = some (Ev.prints "\t")
            ∧ (printargline w f sp).getLast? = some (Ev.prints ")\n")) := by
  refine ⟨rfl, ?_, fun _ _ _ => rfl, ?_⟩
  · obtain ⟨h1, h2, _⟩ := gentraceback_report w pc0 sp lr g 0 100
    have hlen := records_length w 100 (if pc0 = 0 then lr else pc0) sp
      (if pc0 = 0 then 0 else lr) g.stackbase
    have hL : ((records w 100 (if pc0 = 0 then lr else pc0) sp (if pc0 = 0 then 0 else lr)
        g.stackbase).drop (0 : Int).toNat).take (100 : Int).toNat
        = records w 100 (if pc0 = 0 then lr else pc0) sp (if pc0 = 0 then 0 else lr)
            g.stackbase := by
      rw [Int.toNat_zero, List.drop_zero]
      exact List.take_of_length_le hlen
    rw [hL] at h1 h2
    refine ⟨_, h1.symm, hlen, h2, ?_, ?_⟩
    · intro b
      rw [gentraceback_collected, records_pc, reportable, Int.toNat_zero, List.drop_zero]
      symm
      apply List.take_of_length_le
      rw [← records_pc, List.length_map]
      exact hlen
    · intro r hr
      exact (records_real w _ _ _ _ _ r hr).2
  · intro f pc sp n
    exact ⟨(printheader_line w f pc n).1, (printheader_line w f pc n).2,
      (printargline_line w f sp).1, (printargline_line w f sp).2.1,
      (printargline_line w f sp).2.2⟩

theorem traceback_records_witness :
    (traceback twoSegments 0x2110 0x1000c 0 ⟨0x500⟩).n = 3
      ∧ (traceback twoSegments 0x2110 0x1000c 0 ⟨0x500⟩).out
        = printrecords twoSegments 0
            [{ f := fF, pc := 0x2110, sp := 0x1000c }, { f := fF, pc := 0x2120, sp := 0x20000 },
              { f := fMain, pc := 0x2010, sp := 0x20008 }]
      ∧ traceback twoSegments 0x2110 0x1000c 0 ⟨0x500⟩
        = gentraceback twoSegments 0x2110 0x1000c 0 ⟨0x500⟩ 0 none 100 :=
  ⟨by decide, by decide, (traceback_records twoSegments 0x2110 0x1000c 0 ⟨0x500⟩).1⟩

/-! ## Iterations, emitted addresses and capacity -/

/-- The iterations of the loop are its segment transitions, the frames it
skips and the frames it emits; no frame is emitted while a skip is left. -/
theorem loop_budget (w : World) (m : Int) :
    ∀ (fuel : Nat) (s : State), 0 ≤ s.skip →
      0 ≤ (loop w m fuel s).skip
        ∧ (loop w m fuel s).skip ≤ s.skip
        ∧ ((loop w m fuel s).iter : Int)
          = s.iter + (s.skip - (loop w m fuel s).skip) + (((loop w m fuel s).n : Int) - s.n)
            + crossings w m fuel s
        ∧ s.n ≤ (loop w m fuel s).n
        ∧ (s.n < (loop w m fuel s).n → (loop w m fuel s).skip = 0) := by
  intro fuel
  induction fuel with
  | zero =>
    intro s h
    simp [loop, crossings, h]
  | succ k ih =>
    rintro ⟨pc, sp, lr, stk, skip, n, iter, pcbuf, out⟩ h0
    simp only at h0
    by_cases hc : iter < 100 ∧ (n : Int) < m
    · by_cases hls : pc = w.lessstack
      · have := ih { pc := (w.stktop stk).gobuf.pc, sp := (w.stktop stk).gobuf.sp,
                     lr := w.word (w.stktop stk).gobuf.sp, stk := (w.stktop stk).stackbase,
                     skip := skip, n := n, iter := iter + 1, pcbuf := pcbuf, out := out } h0
        simp only [loop, crossings, body, hc, hls, and_self, if_true] at this ⊢
        obtain ⟨h1, h1', h2, h3, h4⟩ := this
        refine ⟨h1, h1', ?_, h3, h4⟩
        rw [h2]
        push_cast
        ring
      · by_cases hg : pc ≤ 0x1000
        · simp [loop, crossings, body, hc, hls, hg, h0]
        · cases hf : w.findfunc (pc - 4) with
          | none => simp [loop, crossings, body, hc, hls, hg, hf, h0]
          | some f =>
            by_cases hsk : 0 < skip
            · have := ih { pc := if lr = 0 then w.word sp else lr,
                           sp := if 0 ≤ f.frame then (((sp : Int) + f.frame) % 2 ^ 32).toNat else sp,
                           lr := 0, stk := stk,
                           skip := skip - 1, n := n, iter := iter + 1, pcbuf := pcbuf, out := out }
                  (by simp only; omega)
              simp only [loop, crossings, body, hc, hls, hg, hf, hsk, and_self, if_true,
                if_false] at this ⊢
              obtain ⟨h1, h1', h2, h3, h4⟩ := this
              refine ⟨h1, by omega, ?_, h3, h4⟩
              rw [h2]
              push_cast
              ring
            · have hz : skip = 0 := by omega
              subst hz
              cases pcbuf with
              | none =>
                have := ih { pc := if lr = 0 then w.word sp else lr,
                             sp := if 0 ≤ f.frame then (((sp : Int) + f.frame) % 2 ^ 32).toNat
                               else sp,
                             lr := 0, stk := stk,
                             skip := 0, n := n + 1, iter := iter + 1, pcbuf := none,
                             out := out ++ (printheader w f pc n ++ printargline w f sp) }
                    (by simp)
                simp only [loop, crossings, body, hc, hls, hg, hf, hsk, and_self, if_true,
                  if_false] at this ⊢
                obtain ⟨h1, h1', h2, h3, h4⟩ := this
                refine ⟨h1, h1', ?_, by omega, fun _ => by omega⟩
                rw [h2]
                push_cast
                ring
              | some b =>
                have := ih { pc := if lr = 0 then w.word sp else lr,
                             sp := if 0 ≤ f.frame then (((sp : Int) + f.frame) % 2 ^ 32).toNat
                               else sp,
                             lr := 0, stk := stk,
                             skip := 0, n := n + 1, iter := iter + 1,
                             pcbuf := some (Function.update b n pc),
                             out := out ++ [Ev.store n pc] }
                    (by simp)
                simp only [loop, crossings, body, hc, hls, hg, hf, hsk, and_self, if_true,
                  if_false] at this ⊢
                obtain ⟨h1, h1', h2, h3, h4⟩ := this
                refine ⟨h1, h1', ?_, by omega, fun _ => by omega⟩
                rw [h2]
                push_cast
                ring
    · simp [loop, crossings, hc, h0]

/-- C17. For every `skip >= 0`, in either mode and for every capacity: if all
skips were used up (at least `skip` real frames were met), the returned count,
the skip and the number of segment transitions performed add up to at most
100; for `skip <= 100` the count is at most `100 - skip`; and for
`skip >= 100` the count is `0`. -/
theorem iteration_budget (w : World) (pc0 sp lr0 : Nat) (g : G) (skip : Int)
    (pcbuf : Option (Nat → Nat)) (m : Int) (hskip : 0 ≤ skip) :
    ((gentraceback w pc0 sp lr0 g skip pcbuf m).skip = 0 →
        ((gentraceback w pc0 sp lr0 g skip pcbuf m).n : Int) + skip
          + crossings w m 100 (start pc0 sp lr0 g skip pcbuf) ≤ 100)
      ∧ (skip ≤ 100 → ((gentraceback w pc0 sp lr0 g skip pcbuf m).n : Int) ≤ 100 - skip)
      ∧ (100 ≤ skip → (gentraceback w pc0 sp lr0 g skip pcbuf m).n = 0) := by
  obtain ⟨h1, h1', h2, h3, h4⟩ := loop_budget w m 100 (start pc0 sp lr0 g skip pcbuf) hskip
  have hi := loop_iter_le w m 100 (start pc0 sp lr0 g skip pcbuf) (by simp [start])
  change 0 ≤ (gentraceback w pc0 sp lr0 g skip pcbuf m).skip at h1
  change (gentraceback w pc0 sp lr0 g skip pcbuf m).skip ≤ skip at h1'
  change ((gentraceback w pc0 sp lr0 g skip pcbuf m).iter : Int)
    = (0 : Nat) + (skip - (gentraceback w pc0 sp lr0 g skip pcbuf m).skip)
      + (((gentraceback w pc0 sp lr0 g skip pcbuf m).n : Int) - (0 : Nat))
      + crossings w m 100 (start pc0 sp lr0 g skip pcbuf) at h2
  change 0 < (gentraceback w pc0 sp lr0 g skip pcbuf m).n →
    (gentraceback w pc0 sp lr0 g skip pcbuf m).skip = 0 at h4
  change (gentraceback w pc0 sp lr0 g skip pcbuf m).iter ≤ 100 at hi
  refine ⟨?_, ?_, ?_⟩
  · intro hz
    omega
  · intro hle
    by_cases hn : 0 < (gentraceback w pc0 sp lr0 g skip pcbuf m).n
    · have := h4 hn
      omega
    · omega
  · intro hge
    by_contra hn
    have := h4 (by omega)
    omega

theorem iteration_budget_witness :
    (0 : Int) ≤ 1
      ∧ (gentraceback twoSegments 0x2204 0x10000 0 ⟨0x500⟩ 1 (some dirty) 10).skip = 0
      ∧ (gentraceback twoSegments 0x2204 0x10000 0 ⟨0x500⟩ 1 (some dirty) 10).n = 3
      ∧ crossings twoSegments 10 100 (start 0x2204 0x10000 0 ⟨0x500⟩ 1 (some dirty)) = 1
      ∧ (gentraceback twoSegments 0x2204 0x10000 0 ⟨0x500⟩ 1 (some dirty) 10).iter = 5
      ∧ ((gentraceback twoSegments 0x2204 0x10000 0 ⟨0x500⟩ 1 (some dirty) 10).n : Int) + 1
          + crossings twoSegments 10 100 (start 0x2204 0x10000 0 ⟨0x500⟩ 1 (some dirty)) ≤ 100
      ∧ (gentraceback deepStack 0x2010 0x10000 0 ⟨0⟩ 99 (some dirty) 10).n = 1
      ∧ (gentraceback deepStack 0x2010 0x10000 0 ⟨0⟩ 100 (some dirty) 10).n = 0 :=
  have h := iteration_budget twoSegments 0x2204 0x10000 0 ⟨0x500⟩ 1 (some dirty) 10 (by decide)
  ⟨by decide, by decide, by decide, by decide, by decide, h.1 (by decide), by decide, by decide⟩

/-- A value stored by `writes` is a value of the list. -/
theorem mem_of_store_mem_writes (L : List Nat) :
    ∀ (n i v : Nat), Ev.store i v ∈ writes n L → v ∈ L := by
  induction L with
  | nil => intro n i v h; simp [writes] at h
  | cons a r ih =>
    intro n i v h
    simp only [writes, List.mem_cons] at h
    rcases h with h | h
    · injection h with _ hv
      simp [hv]
    · exact List.mem_cons_of_mem _ (ih _ _ _ h)

/-- Every address of `frames` is above the guard threshold, is not the
sentinel and is known to the function index at `pc - 4`. -/
theorem frames_real (w : World) (k pc sp lr stk v : Nat)
    (h : v ∈ frames w k pc sp lr stk) :
    0x1000 < v ∧ v ≠ w.lessstack ∧ ∃ f, w.findfunc (v - 4) = some f := by
  rw [← records_pc, List.mem_map] at h
  obtain ⟨r, hr, hv⟩ := h
  obtain ⟨h1, h2, h3⟩ := records_real w _ _ _ _ _ r hr
  subst hv
  exact ⟨h1, h2, r.f, h3⟩

/-- C18. Every address the walker emits is strictly greater than `0x1000`, is
not the sentinel address, and is one for which the lookup at `pc - 4` returned a
descriptor. In collect mode this holds for every stored value and so for every
entry of the returned sequence; in report mode the output is the text of as
many frame records as the returned count, each for such an address and printed
with the descriptor that the lookup returned. -/
theorem emitted_addresses (w : World) (pc0 sp lr0 : Nat) (g : G) (skip : Int) (m : Int) :
    (∀ (b : Nat → Nat) (i v : Nat),
        Ev.store i v ∈ (gentraceback w pc0 sp lr0 g skip (some b) m).out →
          0x1000 < v ∧ v ≠ w.lessstack ∧ ∃ f, w.findfunc (v - 4) = some f)
      ∧ (∀ (b : Nat → Nat) (v : Nat),
          v ∈ (gentraceback w pc0 sp lr0 g skip (some b) m).collected →
            0x1000 < v ∧ v ≠ w.lessstack ∧ ∃ f, w.findfunc (v - 4) = some f)
      ∧ ∃ recs : List Record,
          (gentraceback w pc0 sp lr0 g skip none m).out = printrecords w 0 recs
            ∧ recs.length = (gentraceback w pc0 sp lr0 g skip none m).n
            ∧ ∀ r ∈ recs,
                0x1000 < r.pc ∧ r.pc ≠ w.lessstack ∧ w.findfunc (r.pc - 4) = some r.f := by
  have hc : ∀ (b : Nat → Nat) (v : Nat),
      v ∈ (gentraceback w pc0 sp lr0 g skip (some b) m).collected →
        0x1000 < v ∧ v ≠ w.lessstack ∧ ∃ f, w.findfunc (v - 4) = some f := by
    intro b v hv
    rw [gentraceback_collected] at hv
    exact frames_real w _ _ _ _ _ v (List.mem_of_mem_drop (List.mem_of_mem_take hv))
  refine ⟨?_, hc, ?_⟩
  · intro b i v hv
    rw [(gentraceback_collect w pc0 sp lr0 g skip b m).2.1] at hv
    have := mem_of_store_mem_writes _ _ _ _ hv
    rw [← gentraceback_collected w pc0 sp lr0 g skip b m] at this
    exact hc b v this
  · obtain ⟨h1, h2, _⟩ := gentraceback_report w pc0 sp lr0 g skip m
    refine ⟨_, h2, h1.symm, ?_⟩
    intro r hr
    exact records_real w _ _ _ _ _ r (List.mem_of_mem_drop (List.mem_of_mem_take hr))

theorem emitted_addresses_witness :
    (gentraceback twoSegments 0x2204 0x10000 0 ⟨0x500⟩ 0 (some dirty) 10).out
        = [Ev.store 0 0x2204, Ev.store 1 0x2110, Ev.store 2 0x2120, Ev.store 3 0x2010]
      ∧ (0x1000 < 0x2110 ∧ 0x2110 ≠ twoSegments.lessstack
          ∧ ∃ f, twoSegments.findfunc (0x2110 - 4) = some f) :=
  ⟨by decide,
    (emitted_addresses twoSegments 0x2204 0x10000 0 ⟨0x500⟩ 0 10).1 dirty 1 0x2110 (by decide)⟩

/-- C19. For the same start, task, skip, memory and function index and for
capacities `m <= m'`, the sequence collected with capacity `m` is an initial
part of the sequence collected with capacity `m'`: it is that sequence cut to
its first `m` entries, the larger result extends it, and the count does not
go down. -/
theorem capacity_monotone (w : World) (pc0 sp lr0 : Nat) (g : G) (skip : Int)
    (b1 b2 : Nat → Nat) (m m' : Int) (hm : m ≤ m') :
    (gentraceback w pc0 sp lr0 g skip (some b1) m).collected
        = ((gentraceback w pc0 sp lr0 g skip (some b2) m').collected).take m.toNat
      ∧ (gentraceback w pc0 sp lr0 g skip (some b1) m).collected
        <+: (gentraceback w pc0 sp lr0 g skip (some b2) m').collected
      ∧ (gentraceback w pc0 sp lr0 g skip (some b1) m).n
        ≤ (gentraceback w pc0 sp lr0 g skip (some b2) m').n := by
  have hmin : min m.toNat m'.toNat = m.toNat := by
    apply Nat.min_eq_left
    omega
  have key : (gentraceback w pc0 sp lr0 g skip (some b1) m).collected
      = ((gentraceback w pc0 sp lr0 g skip (some b2) m').collected).take m.toNat := by
    rw [gentraceback_collected, gentraceback_collected, List.take_take, hmin]
  refine ⟨key, ?_, ?_⟩
  · rw [key]
    exact ⟨_, List.take_append_drop _ _⟩
  · rw [← collected_length, ← collected_length, key]
    exact List.length_take_le' _ _

theorem capacity_monotone_witness :
    (2 : Int) ≤ 3
      ∧ (gentraceback twoSegments 0x2204 0x10000 0 ⟨0x500⟩ 1 (some dirty) 2).collected
        = [0x2110, 0x2120]
      ∧ (gentraceback twoSegments 0x2204 0x10000 0 ⟨0x500⟩ 1 (some dirty) 3).collected
        = [0x2110, 0x2120, 0x2010]
      ∧ (gentraceback twoSegments 0x2204 0x10000 0 ⟨0x500⟩ 1 (some dirty) 2).collected
        = ((gentraceback twoSegments 0x2204 0x10000 0 ⟨0x500⟩ 1 (some dirty) 3).collected).take
            (2 : Int).toNat :=
  ⟨by decide, by decide, by decide,
    (capacity_monotone twoSegments 0x2204 0x10000 0 ⟨0x500⟩ 1 dirty dirty 2 3 (by decide)).1⟩

end Traceback
